import Mathlib

/-!
Verification development for the `im-dreaming` interactive-fiction bot.

The repository has two source files: `parser.py` (a regex-driven parser
turning a markdown game script into state definitions) and `main.py`
(condition evaluation, state presentation with side effects, and the
per-session transition machine).  This file gives a shallow embedding of
those components: Python strings are modelled as Lean `String`/`List Char`,
Python `dict`/`set` values as structures and duplicate-free lists, Python
exceptions as `Option` (`none` = the call raises), and `random.randint`
as an explicit oracle parameter.  The regexes of the source are concrete
and simple, so each is compiled by hand into a deterministic scanner over
`List Char`; every scanner is written with explicit fuel so that all
definitions are structurally recursive and kernel-computable.
-/

set_option maxHeartbeats 1000000

namespace Dream

/-! ## Python string primitives -/

/-- Python `str.isdigit()` restricted to ASCII digits: nonempty and
all characters are digits. -/
def pyIsDigitL (l : List Char) : Bool := !l.isEmpty && l.all Char.isDigit

def pyIsDigit (s : String) : Bool := pyIsDigitL s.data

/-- Value of a string of decimal digits, as Python `int()` computes it on
an all-digit string. -/
def digitsToNat (l : List Char) : Nat :=
  l.foldl (fun n c => 10 * n + (c.toNat - 48)) 0

def strToNat (s : String) : Nat := digitsToNat s.data

/-- Python `int(s)`: optional surrounding whitespace, optional sign, then
at least one digit; anything else raises `ValueError` (`none`). -/
def pyIntParseL (l : List Char) : Option Int :=
  match (((l.dropWhile Char.isWhitespace).reverse.dropWhile Char.isWhitespace).reverse) with
  | [] => none
  | c :: rest =>
    if c = '-' then (if pyIsDigitL rest then some (-(digitsToNat rest : Int)) else none)
    else if c = '+' then (if pyIsDigitL rest then some ((digitsToNat rest : Int)) else none)
    else if pyIsDigitL (c :: rest) then some ((digitsToNat (c :: rest) : Int)) else none

def pyIntParse (s : String) : Option Int := pyIntParseL s.data

/-- Python `str.isspace()`: nonempty and all characters whitespace. -/
def pyIsSpaceL (l : List Char) : Bool := !l.isEmpty && l.all Char.isWhitespace

def pyIsSpace (s : String) : Bool := pyIsSpaceL s.data

/-- Python `str.split()` (no argument): split on runs of whitespace,
dropping empty pieces.  Auxiliary: `acc` is the current word, reversed. -/
def wsSplitF : List Char → List Char → List (List Char)
  | [], acc => if acc.isEmpty then [] else [acc.reverse]
  | c :: cs, acc =>
    if c.isWhitespace then
      if acc.isEmpty then wsSplitF cs [] else acc.reverse :: wsSplitF cs []
    else wsSplitF cs (c :: acc)

def wsSplit (s : String) : List String := (wsSplitF s.data []).map fun l => ⟨l⟩

/-- Python `sep in s` (substring containment) on char lists. -/
def containsSeq (pat : List Char) : List Char → Bool
  | [] => pat.isPrefixOf []
  | c :: cs => pat.isPrefixOf (c :: cs) || containsSeq pat cs

/-- Python `s.split(sep)` for a nonempty separator, fuel-driven so that the
definition is structurally recursive.  Matches are found leftmost-first and
are non-overlapping, exactly as `str.split` behaves. -/
def splitSepF (sep : List Char) : Nat → List Char → List (List Char)
  | _, [] => [[]]
  | 0, l => [l]
  | f + 1, x :: xs =>
    if sep.isPrefixOf (x :: xs) then
      [] :: splitSepF sep f ((x :: xs).drop sep.length)
    else
      match splitSepF sep f xs with
      | [] => [[x]]
      | y :: ys => (x :: y) :: ys

def splitSepL (sep l : List Char) : List (List Char) := splitSepF sep l.length l

def splitSep (sep s : String) : List String := (splitSepL sep.data s.data).map fun l => ⟨l⟩

/-- `'\n'.join`-style joining on char lists. -/
def joinWith (sep : List Char) : List (List Char) → List Char
  | [] => []
  | [x] => x
  | x :: y :: t => x ++ sep ++ joinWith sep (y :: t)

/-- Python `str.lstrip()`. -/
def lstripL (l : List Char) : List Char := l.dropWhile Char.isWhitespace

/-- Python `s.replace("**", "*")`: leftmost, non-overlapping. -/
def replaceStarsF : Nat → List Char → List Char
  | _, [] => []
  | 0, l => l
  | f + 1, c :: cs =>
    if c = '*' then
      match cs with
      | '*' :: rest => '*' :: replaceStarsF f rest
      | _ => c :: replaceStarsF f cs
    else c :: replaceStarsF f cs

def replaceStars (l : List Char) : List Char := replaceStarsF l.length l

/-! ## Data model

Mirrors the dictionaries built by `parser.py` and consumed by `main.py`.
A `money` component's content is a `PyAmount`: `Money.__init__` branches on
`isinstance(amount, str)`, so the payload is either a Python `str` or an
`int`. -/

inductive PyAmount where
  | int (n : Int)
  | str (s : String)
  deriving DecidableEq, Repr

inductive Component where
  | message (content : String)
  | mbreak (wait : Nat)
  | modifier (content : String)
  | money (content : PyAmount)
  deriving DecidableEq, Repr

structure Block where
  condition : Option String
  content : List Component
  deriving DecidableEq, Repr

structure Reply where
  condition : Option String
  text : String
  dest_state : Int
  deriving DecidableEq, Repr

/-- One parsed state, the fields of `GameState.__init__` (`main.py`):
`replies` is `init_obj.get('replies')` (absent for terminal states),
`allow_input` is the optional lock pair `(correct, wrong)`. -/
structure GameState where
  state_index : Int
  message_blocks : List Block
  replies : Option (List Reply)
  allow_input : Option (Int × Int)
  is_lethal : Bool
  is_victory : Bool
  deriving DecidableEq, Repr

/-- The per-user `user_data` dict.  `modifiers` is a Python `set` modelled
as a duplicate-free list with membership-tested insertion; `filtered` is
the reply list stored by the last presentation. -/
structure UserData where
  char_name : String
  visited_states : List Int
  modifiers : List String
  last_earn : Option Int
  money : Int
  current_state : GameState
  filtered : List Reply
  deriving DecidableEq, Repr

/-- `MONEY_THRESHOLD` from `main.py`. -/
def MONEY_THRESHOLD : Int := 15

/-- User-facing phrases.  Modelled from the spec: `phrases.py` is imported
by `main.py` but absent from the repository snapshot; the spec only says the
engine uses fixed literal phrases, so they are opaque distinct constants. -/
def INVALID_CHOICE : String := "INVALID_CHOICE"

def RANDOM_INPUT : String := "RANDOM_INPUT"

def WASTED : String := "WASTED"

def VICTORY : String := "VICTORY"

def NAME_ACCEPTED : String := "NAME_ACCEPTED"

/-! ## Condition evaluator: `GameState.check` (`main.py:140-171`)

`check` raises `IndexError` when an atom starts with the three letters
`not` but has no second whitespace-separated word (`part.split()[1]`);
`none` models the raised exception. -/

/-- The membership test of one atom body: an all-digit token is converted
with `int` and looked up in `visited_states`, anything else in
`modifiers`. -/
def memTest (u : UserData) (act : String) : Bool :=
  if pyIsDigit act then decide ((strToNat act : Int) ∈ u.visited_states)
  else decide (act ∈ u.modifiers)

/-- One atom of a condition, as the loop body of `check` treats it:
a part starting with `not` is split and its second word is tested with the
test inverted; otherwise the whole part is tested. -/
def checkAtom (u : UserData) (part : String) : Option Bool :=
  if ['n', 'o', 't'].isPrefixOf part.data then
    match (wsSplit part).get? 1 with
    | none => none
    | some act => some (xor true (memTest u act))
  else
    some (xor false (memTest u part))

/-- The `for part in condition.split(' and ')` loop: first failing atom
returns `False` without evaluating later atoms; a raising atom raises. -/
def checkParts (u : UserData) : List String → Option Bool
  | [] => some true
  | p :: ps =>
    match checkAtom u p with
    | none => none
    | some false => some false
    | some true => checkParts u ps

def andSep : List Char := [' ', 'a', 'n', 'd', ' ']

/-- `GameState.check`: `None` conditions hold; a condition containing the
substring `and` is split on `' and '` and evaluated as a conjunction;
otherwise it is a single atom. -/
def check (u : UserData) (condition : Option String) : Option Bool :=
  match condition with
  | none => some true
  | some c =>
    if containsSeq ['a', 'n', 'd'] c.data then
      checkParts u ((splitSepL andSep c.data).map fun l => (⟨l⟩ : String))
    else
      checkAtom u c

/-! ## Presentation engine: `GameState.present` (`main.py:59-126`) -/

/-- Python `str(x)` for the nullable `last_earn`. -/
def showLastEarn : Option Int → String
  | none => "None"
  | some n => toString n

/-- `str.format(char_name=..., last_earn=..., money=...)` restricted to the
plain placeholder forms the scripts use: `{char_name}`, `{last_earn}`,
`{money}`, and the brace escapes; any other brace raises (`none`), as
Python `format` raises `KeyError`/`IndexError` on unknown or positional
fields.  Replacement text is inserted verbatim, not rescanned. -/
def pyFormat3L (u : UserData) : Nat → List Char → Option (List Char)
  | _, [] => some []
  | 0, _ => none
  | f + 1, c :: cs =>
    if c = '\x7b' then
      match cs with
      | '\x7b' :: rest => (pyFormat3L u f rest).map fun t => '\x7b' :: t
      | _ =>
        if ['c', 'h', 'a', 'r', '_', 'n', 'a', 'm', 'e', '\x7d'].isPrefixOf cs then
          (pyFormat3L u f (cs.drop 10)).map fun t => u.char_name.data ++ t
        else if ['l', 'a', 's', 't', '_', 'e', 'a', 'r', 'n', '\x7d'].isPrefixOf cs then
          (pyFormat3L u f (cs.drop 10)).map fun t => (showLastEarn u.last_earn).data ++ t
        else if ['m', 'o', 'n', 'e', 'y', '\x7d'].isPrefixOf cs then
          (pyFormat3L u f (cs.drop 6)).map fun t => (toString u.money).data ++ t
        else none
    else if c = '\x7d' then
      match cs with
      | '\x7d' :: rest => (pyFormat3L u f rest).map fun t => '\x7d' :: t
      | _ => none
    else
      (pyFormat3L u f cs).map fun t => c :: t

def pyFormat3 (s : String) (u : UserData) : Option String :=
  (pyFormat3L u s.data.length s.data).map fun l => ⟨l⟩

/-- Python `set.add`: membership-tested append. -/
def addTag (l : List String) (t : String) : List String :=
  if t ∈ l then l else l ++ [t]

/-- `random.randint(lo, hi)`: raises `ValueError` when `hi < lo`, otherwise
produced by the oracle `rng`. -/
def pyRandint (rng : Int → Int → Int) (lo hi : Int) : Option Int :=
  if hi < lo then none else some (rng lo hi)

/-- An oracle that respects `randint`'s contract. -/
def RandOk (rng : Int → Int → Int) : Prop :=
  ∀ lo hi : Int, lo ≤ hi → lo ≤ rng lo hi ∧ rng lo hi ≤ hi

/-- `Money.__init__` (`main.py:41-45`): a `str` spec takes
`random.randint(1, int(spec.split()[1]))` — note `split()[1]` raises on a
one-word spec and `int` raises on a non-numeric word; an `int` spec is
taken as-is. -/
def moneyAmount (rng : Int → Int → Int) : PyAmount → Option Int
  | .int n => some n
  | .str s =>
    match (wsSplit s).get? 1 with
    | none => none
    | some t =>
      match pyIntParse t with
      | none => none
      | some n => pyRandint rng 1 n

/-- In-progress presentation state: the session, the text buffer
`current_message`, and the messages emitted so far (in order). -/
structure PState where
  u : UserData
  buf : String
  out : List String
  deriving DecidableEq, Repr

/-- One component step of `present`'s inner loop (`main.py:67-92`). -/
def procComp (rng : Int → Int → Int) (s : PState) : Component → Option PState
  | .message c => some { s with buf := ⟨s.buf.data ++ c.data⟩ }
  | .mbreak _ =>
    match pyFormat3 s.buf s.u with
    | none => none
    | some m => some { s with buf := "", out := s.out ++ [m] }
  | .modifier c =>
    if ['n', 'o', 't'].isPrefixOf c.data then
      match (wsSplit c).get? 1 with
      | none => none
      | some tag =>
        if tag ∈ s.u.modifiers then
          some { s with u := { s.u with modifiers := s.u.modifiers.erase tag } }
        else none
    else
      some { s with u := { s.u with modifiers := addTag s.u.modifiers c } }
  | .money spec =>
    match moneyAmount rng spec with
    | none => none
    | some a =>
      let u1 : UserData := { s.u with last_earn := some a, money := s.u.money + a }
      let u2 : UserData :=
        if MONEY_THRESHOLD ≤ u1.money then { u1 with modifiers := addTag u1.modifiers "money" }
        else u1
      some { s with u := u2 }

def procComps (rng : Int → Int → Int) (s : PState) : List Component → Option PState
  | [] => some s
  | c :: cs =>
    match procComp rng s c with
    | none => none
    | some s1 => procComps rng s1 cs

/-- One message block: skipped entirely when its condition is false
(`main.py:64-65`), a raising condition raises. -/
def procBlock (rng : Int → Int → Int) (s : PState) (b : Block) : Option PState :=
  match check s.u b.condition with
  | none => none
  | some false => some s
  | some true => procComps rng s b.content

def procBlocks (rng : Int → Int → Int) (s : PState) : List Block → Option PState
  | [] => some s
  | b :: bs =>
    match procBlock rng s b with
    | none => none
    | some s1 => procBlocks rng s1 bs

/-- `GameState.filter_replies` (`main.py:128-138`): a reply with no
condition always passes; otherwise `check` decides (and may raise). -/
def filterReplies (u : UserData) : List Reply → Option (List Reply)
  | [] => some []
  | r :: rs =>
    match r.condition with
    | none => (filterReplies u rs).map fun l => r :: l
    | some c =>
      match check u (some c) with
      | none => none
      | some true => (filterReplies u rs).map fun l => r :: l
      | some false => filterReplies u rs

/-- The `'\n'.join('{}) {}'.format(idx, reply['text']) ...)` menu text with
1-based numbering over the filtered list. -/
def renderMenu (filtered : List Reply) : String :=
  ⟨joinWith ['\n'] ((List.enumFrom 1 filtered).map fun p => (toString p.1).data ++ [')', ' '] ++ p.2.text.data)⟩

/-- The final flush of `present` (`main.py:93-101`): emitted only when the
remaining buffer is nonempty and not pure whitespace. -/
def finalFlush (s : PState) : Option (List String) :=
  if s.buf ≠ "" ∧ pyIsSpace s.buf = false then
    match pyFormat3 s.buf s.u with
    | none => none
    | some m => some (s.out ++ [m])
  else some s.out

/-- The terminal/menu tail of `present` (`main.py:103-126`). -/
def presentTail (st : GameState) (u : UserData) (out : List String) :
    Option (Option UserData × List String) :=
  if st.is_lethal then some (none, out ++ [WASTED])
  else if st.is_victory then some (none, out ++ [VICTORY])
  else
    match st.replies with
    | none => none
    | some rs =>
      match filterReplies u rs with
      | none => none
      | some filtered =>
        let u2 : UserData := { u with filtered := filtered }
        let menu := renderMenu filtered
        if menu = "" then some (some u2, out)
        else
          match pyFormat3 menu u2 with
          | none => none
          | some m => some (some u2, out ++ [m])

/-- `GameState.present`.  Result: `none` = an exception escaped; otherwise
`(session-after, messages emitted in order)` where the session is `none`
when the terminal branch ran `user_data.clear()`. -/
def present (rng : Int → Int → Int) (st : GameState) (u : UserData) :
    Option (Option UserData × List String) :=
  match procBlocks rng ⟨u, "", []⟩ st.message_blocks with
  | none => none
  | some s =>
    match finalFlush s with
    | none => none
    | some out => presentTail st s.u out

/-! ## Transition engine: `GameStateManager` (`main.py:174-285`) -/

/-- `self.game_states`, a Python dict built by a comprehension: later
entries with the same key silently overwrite earlier ones. -/
structure Graph where
  states : List (Int × GameState)
  deriving DecidableEq, Repr

/-- Python `dict[k]` lookup: the last binding for `k`; `none` = `KeyError`. -/
def dictGet (g : Graph) (k : Int) : Option GameState :=
  ((g.states.filter fun p => decide (p.1 = k)).getLast?).map fun p => p.2

/-- The dict comprehension of `GameStateManager.__init__` (`main.py:179`). -/
def buildGameStates (l : List GameState) : Graph :=
  ⟨l.map fun s => (s.state_index, s)⟩

/-- Python list indexing `l[i]`: negative indices count from the end,
`none` = `IndexError`. -/
def pyIndex {α : Type} (l : List α) (i : Int) : Option α :=
  if 0 ≤ i then l.get? i.toNat
  else if -i ≤ (l.length : Int) then l.get? (l.length - (-i).toNat) else none

/-- Result of one handler call: the integer the handler returns (the next
conversation state), the session (`none` when `present` cleared it), and
the messages emitted.  Outer `none` = an exception escaped the handler. -/
abbrev StepResult := Option (Int × Option UserData × List String)

/-- `GameStateManager.process_choice` (`main.py:246-265`).  `viaCallback`
says whether the selection arrived as an inline-button callback; on the
`IndexError` path the code replies through `update.callback_query.message`,
which raises `AttributeError` when the input was a plain text message. -/
def process_choice (g : Graph) (rng : Int → Int → Int) (viaCallback : Bool)
    (choice : Int) (u : UserData) : StepResult :=
  match pyIndex u.filtered (choice - 1) with
  | some r =>
    match dictGet g r.dest_state with
    | none => none
    | some st =>
      let u1 : UserData :=
        { u with current_state := st, visited_states := u.visited_states ++ [r.dest_state] }
      match present rng st u1 with
      | none => none
      | some (u2, msgs) => some (r.dest_state, u2, msgs)
  | none =>
    if viaCallback then some (u.current_state.state_index, some u, [INVALID_CHOICE])
    else none

/-- `GameStateManager.input_correct` (`main.py:267-272`): sets
`current_state` to the lock's correct destination and presents it —
without appending to `visited_states`. -/
def input_correct (g : Graph) (rng : Int → Int → Int) (onCorrect : Int)
    (u : UserData) : StepResult :=
  match dictGet g onCorrect with
  | none => none
  | some st =>
    let u1 : UserData := { u with current_state := st }
    match present rng st u1 with
    | none => none
    | some (u2, msgs) => some (onCorrect, u2, msgs)

/-- `GameStateManager.input_wrong` (`main.py:274-279`), identical shape. -/
def input_wrong (g : Graph) (rng : Int → Int → Int) (onWrong : Int)
    (u : UserData) : StepResult :=
  match dictGet g onWrong with
  | none => none
  | some st =>
    let u1 : UserData := { u with current_state := st }
    match present rng st u1 with
    | none => none
    | some (u2, msgs) => some (onWrong, u2, msgs)

/-- `GameStateManager.input_random` (`main.py:281-285`). -/
def input_random (u : UserData) : StepResult :=
  some (u.current_state.state_index, some u, [RANDOM_INPUT])

/-- `GameStateManager.save_name` (`main.py:232-244`): fresh session with
`visited_states = [1]`, then present state 1. -/
def save_name (g : Graph) (rng : Int → Int → Int) (text : String) : StepResult :=
  match dictGet g 1 with
  | none => none
  | some st1 =>
    let u : UserData :=
      { char_name := text, visited_states := [1], modifiers := [], last_earn := none,
        money := 0, current_state := st1, filtered := [] }
    match present rng st1 u with
    | none => none
    | some (u2, msgs) => some (1, u2, NAME_ACCEPTED :: msgs)

/-- `re.match(re.compile('ASK', re.I), text)`: an unanchored pattern under
`re.match` tests at the start of the string only, so this holds iff the
first three characters case-fold to `ask`. -/
def matchAskI (text : String) : Bool :=
  (text.data.take 3).map Char.toLower = ['a', 's', 'k']

/-- `re.match('^[a-zA-Z]{3}$', text)`: exactly three ASCII letters. -/
def matchThreeAlpha (text : String) : Bool :=
  text.data.length = 3 && text.data.all Char.isAlpha

/-- `re.match('1', text)`: the text starts with the character `1`. -/
def matchOne (text : String) : Bool :=
  ['1'].isPrefixOf text.data

/-- Text-message dispatch while the current state has a lock
(`GameStateManager.__getitem__`, `main.py:192-205`): the handler list is
tried in order — `ASK` (case-insensitive, prefix), three letters, a text
starting with `1` (which `process_choice` then runs through `int(text)`),
and finally the catch-all `input_random`. -/
def lockDispatch (g : Graph) (rng : Int → Int → Int) (lock : Int × Int)
    (text : String) (u : UserData) : StepResult :=
  if matchAskI text then input_correct g rng lock.1 u
  else if matchThreeAlpha text then input_wrong g rng lock.2 u
  else if matchOne text then
    match pyIntParse text with
    | none => none
    | some n => process_choice g rng false n u
  else input_random u

/-! ## Script parser (`parser.py`)

The parser's regexes are concrete, so each is compiled into a
deterministic scanner.  `comp_ptn` = `(<(?:mod|input|mb|money)[^/]*/>)`:
the alternatives are pairwise non-prefix, `[^/]*` cannot cross a slash,
so a tag runs from `<keyword` to the first `/`, which must be followed by
`>`.  `if_ptn` = `(<if [^>]+>.+?</if>)` with `re.S`: the condition runs to
the first `>`, the lazy body ends at the first `</if>` after at least one
character.  `re.split` with one capturing group yields the alternating
list of plain segments and matched tags, which the source then re-parses
with `fullmatch` — segments that merely start like a tag make `fullmatch`
return `None` and the subsequent `.group` raise. -/

/-- Leftmost-first `re.split` with the whole match as the single capture
group: alternating plain segments and matches, starting and ending with a
(possibly empty) segment.  `tryAt` attempts a match anchored at the head. -/
def scanSplitF (tryAt : List Char → Option (List Char × List Char)) :
    Nat → List Char → List Char → List (List Char)
  | _, [], acc => [acc.reverse]
  | 0, l, acc => [acc.reverse ++ l]
  | f + 1, x :: xs, acc =>
    match tryAt (x :: xs) with
    | some (m, rest) => acc.reverse :: m :: scanSplitF tryAt f rest []
    | none => scanSplitF tryAt f xs (x :: acc)

def scanSplit (tryAt : List Char → Option (List Char × List Char)) (l : List Char) :
    List (List Char) :=
  scanSplitF tryAt l.length l []

def compKeywords : List (List Char) :=
  [['m', 'o', 'd'], ['i', 'n', 'p', 'u', 't'], ['m', 'b'], ['m', 'o', 'n', 'e', 'y']]

/-- Anchored match of `comp_ptn`. -/
def compTryAt (l : List Char) : Option (List Char × List Char) :=
  match l with
  | '<' :: rest =>
    match compKeywords.find? fun kw => kw.isPrefixOf rest with
    | none => none
    | some kw =>
      let after := rest.drop kw.length
      let body := after.takeWhile fun c => c ≠ '/'
      match after.drop body.length with
      | '/' :: '>' :: rest3 => some ('<' :: (kw ++ body ++ ['/', '>']), rest3)
      | _ => none
  | _ => none

def closeIf : List Char := ['<', '/', 'i', 'f', '>']

/-- The lazy `.+?</if>` search: first `</if>` preceded by at least one
body character. -/
def findCloseF : Nat → List Char → List Char → Option (List Char × List Char)
  | _, [], _ => none
  | 0, _, _ => none
  | f + 1, c :: cs, acc =>
    if !acc.isEmpty && closeIf.isPrefixOf (c :: cs) then
      some (acc.reverse, (c :: cs).drop 5)
    else findCloseF f cs (c :: acc)

/-- Anchored match of `if_ptn`. -/
def ifTryAt (l : List Char) : Option (List Char × List Char) :=
  match l with
  | '<' :: 'i' :: 'f' :: ' ' :: rest =>
    let cond := rest.takeWhile fun c => c ≠ '>'
    if cond.isEmpty then none
    else
      match rest.drop cond.length with
      | '>' :: rest3 =>
        match findCloseF rest3.length rest3 [] with
        | none => none
        | some (content, rest4) =>
          some ('<' :: 'i' :: 'f' :: ' ' :: (cond ++ '>' :: content ++ closeIf), rest4)
      | _ => none
  | _ => none

/-- `parse_mod.fullmatch` / `parse_money.fullmatch`: `'<KW ([^/]+)/>'`. -/
def parseTagBody (kw : List Char) (part : List Char) : Option (List Char) :=
  if ('<' :: kw ++ [' ']).isPrefixOf part then
    let rest := part.drop (kw.length + 2)
    let content := rest.takeWhile fun c => c ≠ '/'
    if content.isEmpty then none
    else if rest.drop content.length = ['/', '>'] then some content else none
  else none

def isWordChar (c : Char) : Bool := c.isAlphanum || c = '_'

/-- `parse_input.fullmatch`: `'<input \w+ correct=([0-9]+) wrong=([0-9]+)/>'`. -/
def parseInputFull (part : List Char) : Option (Int × Int) :=
  if ['<', 'i', 'n', 'p', 'u', 't', ' '].isPrefixOf part then
    let r1 := part.drop 7
    let w := r1.takeWhile isWordChar
    if w.isEmpty then none
    else
      let r2 := r1.drop w.length
      if [' ', 'c', 'o', 'r', 'r', 'e', 'c', 't', '='].isPrefixOf r2 then
        let r3 := r2.drop 9
        let d1 := r3.takeWhile Char.isDigit
        if d1.isEmpty then none
        else
          let r4 := r3.drop d1.length
          if [' ', 'w', 'r', 'o', 'n', 'g', '='].isPrefixOf r4 then
            let r5 := r4.drop 7
            let d2 := r5.takeWhile Char.isDigit
            if d2.isEmpty then none
            else if r5.drop d2.length = ['/', '>'] then
              some ((digitsToNat d1 : Int), (digitsToNat d2 : Int))
            else none
          else none
      else none
  else none

/-- `parse_mb.fullmatch`: `'<mb(?: wait=([0-9]+))?/>'`; a missing group
gives `int(None or 0) = 0`. -/
def parseMbFull (part : List Char) : Option Nat :=
  if ['<', 'm', 'b'].isPrefixOf part then
    let r1 := part.drop 3
    if r1 = ['/', '>'] then some 0
    else if [' ', 'w', 'a', 'i', 't', '='].isPrefixOf r1 then
      let r2 := r1.drop 6
      let d := r2.takeWhile Char.isDigit
      if d.isEmpty then none
      else if r2.drop d.length = ['/', '>'] then some (digitsToNat d) else none
    else none
  else none

/-- `parse_if.fullmatch` on a whole piece: with `fullmatch`, the lazy body
backtracks until the final `</if>` sits at the very end, so the piece must
end with `</if>` with a nonempty body before it. -/
def parseIfFull (part : List Char) : Option (List Char × List Char) :=
  if ['<', 'i', 'f', ' '].isPrefixOf part then
    let r1 := part.drop 4
    let cond := r1.takeWhile fun c => c ≠ '>'
    if cond.isEmpty then none
    else
      match r1.drop cond.length with
      | '>' :: r2 =>
        if 6 ≤ r2.length && closeIf.isPrefixOf (r2.drop (r2.length - 5)) then
          some (cond, r2.take (r2.length - 5))
        else none
      | _ => none
  else none

/-- One piece of the `comp_ptn` split, as `break_to_components` treats it.
The threaded `si` is the parser's mutable `state_input` field. -/
def compStep (si : Option (Int × Int)) (acc : List Component) (part : List Char) :
    Option (List Component × Option (Int × Int)) :=
  if ['<', 'm', 'o', 'd'].isPrefixOf part then
    match parseTagBody ['m', 'o', 'd'] part with
    | none => none
    | some content => some (acc ++ [.modifier ⟨content⟩], si)
  else if ['<', 'i', 'n', 'p', 'u', 't'].isPrefixOf part then
    match parseInputFull part with
    | none => none
    | some cw => some (acc, some cw)
  else if ['<', 'm', 'b'].isPrefixOf part then
    match parseMbFull part with
    | none => none
    | some w => some (acc ++ [.mbreak w], si)
  else if ['<', 'm', 'o', 'n', 'e', 'y'].isPrefixOf part then
    match parseTagBody ['m', 'o', 'n', 'e', 'y'] part with
    | none => none
    | some content => some (acc ++ [.money (.str ⟨content⟩)], si)
  else if part.isEmpty || pyIsSpaceL part then some (acc, si)
  else some (acc ++ [.message ⟨lstripL (replaceStars part)⟩], si)

def compFold (si : Option (Int × Int)) (acc : List Component) :
    List (List Char) → Option (List Component × Option (Int × Int))
  | [] => some (acc, si)
  | p :: ps =>
    match compStep si acc p with
    | none => none
    | some (acc1, si1) => compFold si1 acc1 ps

/-- `Parser.break_to_components`. -/
def break_to_components (si : Option (Int × Int)) (text : List Char) :
    Option (List Component × Option (Int × Int)) :=
  compFold si [] (scanSplit compTryAt text)

def blockFold (si : Option (Int × Int)) (acc : List Block) :
    List (List Char) → Option (List Block × Option (Int × Int))
  | [] => some (acc, si)
  | p :: ps =>
    if ['<', 'i', 'f'].isPrefixOf p then
      match parseIfFull p with
      | none => none
      | some (cond, content) =>
        match break_to_components si content with
        | none => none
        | some (comps, si1) => blockFold si1 (acc ++ [⟨some ⟨cond⟩, comps⟩]) ps
    else
      match break_to_components si p with
      | none => none
      | some (comps, si1) => blockFold si1 (acc ++ [⟨none, comps⟩]) ps

/-- `Parser.break_to_blocks`. -/
def break_to_blocks (si : Option (Int × Int)) (text : List Char) :
    Option (List Block × Option (Int × Int)) :=
  blockFold si [] (scanSplit ifTryAt text)

/-- The lazy `(.+?) \(([0-9]+)\)` search of `reply_ptn`: the shortest
nonempty newline-free text followed by a parenthesized number.  Returns
`(text, digits, rest-after-close-paren)`. -/
def findDestF : Nat → List Char → List Char → Option (List Char × List Char × List Char)
  | _, [], _ => none
  | 0, _, _ => none
  | f + 1, c :: cs, acc =>
    let tryHere : Option (List Char × List Char × List Char) :=
      if acc.isEmpty then none
      else
        match c :: cs with
        | ' ' :: '(' :: cs2 =>
          let d := cs2.takeWhile Char.isDigit
          if d.isEmpty then none
          else
            match cs2.drop d.length with
            | ')' :: rest => some (acc.reverse, d, rest)
            | _ => none
        | _ => none
    match tryHere with
    | some r => some r
    | none => if c = '\n' then none else findDestF f cs (c :: acc)

/-- Anchored match of `reply_ptn`
(`'> (?:<if ([^>]+)>)?(.+?) \(([0-9]+)\)(?:</if>)?'`); when the optional
`<if …>` part matches but the rest fails, the engine backtracks and
retries with the group absent.  Empty-string captures of the condition
group cannot occur, so the `if condition:` test of `parse_replies` is the
`Option`.  The text group has `**` collapsed, as `parse_replies` does. -/
def replyTryAt (l : List Char) : Option (Reply × List Char) :=
  match l with
  | '>' :: ' ' :: rest =>
    let withIf : Option (Reply × List Char) :=
      if ['<', 'i', 'f', ' '].isPrefixOf rest then
        let cond := (rest.drop 4).takeWhile fun c => c ≠ '>'
        if cond.isEmpty then none
        else
          match (rest.drop 4).drop cond.length with
          | '>' :: r3 =>
            match findDestF r3.length r3 [] with
            | none => none
            | some (txt, d, rest2) =>
              some ({ condition := some ⟨cond⟩, text := ⟨replaceStars txt⟩,
                      dest_state := (digitsToNat d : Int) },
                    if closeIf.isPrefixOf rest2 then rest2.drop 5 else rest2)
          | _ => none
      else none
    match withIf with
    | some r => some r
    | none =>
      match findDestF rest.length rest [] with
      | none => none
      | some (txt, d, rest2) =>
        some ({ condition := none, text := ⟨replaceStars txt⟩,
                dest_state := (digitsToNat d : Int) },
              if closeIf.isPrefixOf rest2 then rest2.drop 5 else rest2)
  | _ => none

/-- `re.findall`: leftmost non-overlapping matches, scanning forward. -/
def findAllF {α : Type} (tryAt : List Char → Option (α × List Char)) :
    Nat → List Char → List α
  | _, [] => []
  | 0, _ => []
  | f + 1, x :: xs =>
    match tryAt (x :: xs) with
    | some (a, rest) => a :: findAllF tryAt f rest
    | none => findAllF tryAt f xs

/-- `Parser.parse_replies`. -/
def parse_replies (text : List Char) : List Reply :=
  findAllF replyTryAt text.length text

def sectSep : List Char := ['\n', '-', '-', '-', '-', '\n']

def paraSep : List Char := ['\n', '\n']

def wastedMarker : List Char := "**потрачено**".data

/-- One state section of `Parser.parse` (`parser.py:71-96`): header line
(`int(header[4:])`), then the choice/lethal/victory discrimination on the
last paragraph, then the pending-lock consumption and reset. -/
def parseSection (si0 : Option (Int × Int)) (desc : List Char) :
    Option (GameState × Option (Int × Int)) :=
  match splitSepL paraSep desc with
  | [] => none
  | header :: body =>
    match pyIntParseL (header.drop 4) with
    | none => none
    | some idx =>
      match body.getLast? with
      | none => none
      | some lastP =>
        match lastP.head? with
        | none => none
        | some c0 =>
          if c0 = '>' then
            match break_to_blocks si0 (joinWith paraSep body.dropLast) with
            | none => none
            | some (blocks, si1) =>
              some ({ state_index := idx, message_blocks := blocks,
                      replies := some (parse_replies lastP),
                      allow_input := si1, is_lethal := false, is_victory := false }, none)
          else if containsSeq wastedMarker lastP then
            match break_to_blocks si0 (joinWith paraSep body) with
            | none => none
            | some (blocks, si1) =>
              some ({ state_index := idx, message_blocks := blocks,
                      replies := none,
                      allow_input := si1, is_lethal := true, is_victory := false }, none)
          else
            match break_to_blocks si0 (joinWith paraSep body) with
            | none => none
            | some (blocks, si1) =>
              some ({ state_index := idx, message_blocks := blocks,
                      replies := none,
                      allow_input := si1, is_lethal := false, is_victory := true }, none)

def parseSections (si : Option (Int × Int)) : List (List Char) → Option (List GameState)
  | [] => some []
  | d :: ds =>
    match parseSection si d with
    | none => none
    | some (st, si1) =>
      match parseSections si1 ds with
      | none => none
      | some sts => some (st :: sts)

/-- `Parser().parse(game_file)`: split the document on the separator line
and process each section with a freshly initialized `state_input`. -/
def parseGame (md : String) : Option (List GameState) :=
  parseSections none (splitSepL sectSep md.data)

/-! ## Infrastructure lemmas: the fuel splitter -/

lemma splitSepF_congr (sep : List Char) (hs : sep ≠ []) :
    ∀ n f1 f2 l, l.length = n → n ≤ f1 → n ≤ f2 →
      splitSepF sep f1 l = splitSepF sep f2 l := by
  intro n
  induction n using Nat.strong_induction_on with
  | _ n ih =>
    intro f1 f2 l hlen h1 h2
    cases l with
    | nil => cases f1 <;> cases f2 <;> rfl
    | cons x xs =>
      subst hlen
      cases f1 with
      | zero => simp at h1
      | succ g1 =>
        cases f2 with
        | zero => simp at h2
        | succ g2 =>
          simp only [splitSepF]
          have hxl : (x :: xs).length = xs.length + 1 := by simp
          by_cases hp : sep.isPrefixOf (x :: xs) = true
          · rw [if_pos hp, if_pos hp]
            have hd : ((x :: xs).drop sep.length).length = (x :: xs).length - sep.length := by
              simp
            have hslen : 1 ≤ sep.length := by
              cases sep with
              | nil => exact absurd rfl hs
              | cons a as => simp
            have hlt : ((x :: xs).drop sep.length).length < (x :: xs).length := by omega
            congr 1
            exact ih _ hlt g1 g2 _ rfl (by omega) (by omega)
          · rw [if_neg hp, if_neg hp]
            have hlt : xs.length < (x :: xs).length := by simp
            have heq : splitSepF sep g1 xs = splitSepF sep g2 xs :=
              ih _ hlt g1 g2 xs rfl (by omega) (by omega)
            rw [heq]

lemma splitSepL_nil (sep : List Char) : splitSepL sep [] = [[]] := rfl

lemma splitSepL_cons_pos (sep : List Char) (hs : sep ≠ []) (x : Char) (xs : List Char)
    (h : sep.isPrefixOf (x :: xs) = true) :
    splitSepL sep (x :: xs) = [] :: splitSepL sep ((x :: xs).drop sep.length) := by
  have hslen : 1 ≤ sep.length := by
    cases sep with
    | nil => exact absurd rfl hs
    | cons a as => simp
  show splitSepF sep (xs.length + 1) (x :: xs) = _
  simp only [splitSepF, if_pos h]
  congr 1
  exact splitSepF_congr sep hs ((x :: xs).drop sep.length).length xs.length
    ((x :: xs).drop sep.length).length _ rfl (by simp; omega) le_rfl

lemma splitSepL_cons_neg (sep : List Char) (hs : sep ≠ []) (x : Char) (xs : List Char)
    (h : ¬ sep.isPrefixOf (x :: xs) = true) :
    splitSepL sep (x :: xs) =
      match splitSepL sep xs with
      | [] => [[x]]
      | y :: ys => (x :: y) :: ys := by
  show splitSepF sep (xs.length + 1) (x :: xs) = _
  simp only [splitSepF, if_neg h]
  rw [splitSepF_congr sep hs xs.length xs.length xs.length xs rfl le_rfl le_rfl]
  rfl

lemma splitSepL_ne_nil (sep : List Char) (hs : sep ≠ []) (l : List Char) :
    splitSepL sep l ≠ [] := by
  cases l with
  | nil => simp [splitSepL_nil]
  | cons x xs =>
    by_cases hp : sep.isPrefixOf (x :: xs) = true
    · rw [splitSepL_cons_pos sep hs x xs hp]; simp
    · rw [splitSepL_cons_neg sep hs x xs hp]
      cases splitSepL sep xs <;> simp

lemma splitSep_append (sep : List Char) (hs : sep ≠ []) :
    ∀ l r : List Char,
      (∀ t, t ≠ [] → t <:+ l → sep.isPrefixOf (t ++ sep ++ r) = false) →
      splitSepL sep (l ++ sep ++ r) = l :: splitSepL sep r := by
  intro l
  induction l with
  | nil =>
    intro r _
    simp only [List.nil_append]
    cases hsep : sep with
    | nil => exact absurd hsep hs
    | cons a as =>
      rw [← hsep]
      have hpre : sep.isPrefixOf (sep ++ r) = true := by
        rw [List.isPrefixOf_iff_prefix]
        exact List.prefix_append sep r
      have : sep ++ r = (a :: as) ++ r := by rw [hsep]
      rw [this]
      have hpre2 : sep.isPrefixOf (a :: (as ++ r)) = true := by
        rw [← List.cons_append, ← hsep]; exact hpre
      rw [List.cons_append, splitSepL_cons_pos sep hs a (as ++ r) hpre2]
      congr 1
      rw [← List.cons_append, ← hsep, List.drop_left]
  | cons x xs ih =>
    intro r H
    have hnp : sep.isPrefixOf ((x :: xs) ++ sep ++ r) = true → False := by
      intro hcontra
      have := H (x :: xs) (by simp) List.suffix_rfl
      rw [this] at hcontra
      exact Bool.noConfusion hcontra
    have hshape : (x :: xs) ++ sep ++ r = x :: (xs ++ sep ++ r) := by simp
    rw [hshape]
    have hnp2 : ¬ sep.isPrefixOf (x :: (xs ++ sep ++ r)) = true := by
      intro hcontra; exact hnp (by rw [hshape]; exact hcontra)
    rw [splitSepL_cons_neg sep hs x (xs ++ sep ++ r) hnp2]
    rw [ih r fun t ht hsuf => H t ht (hsuf.trans (List.suffix_cons x xs))]

lemma splitSep_single (sep : List Char) (hs : sep ≠ []) :
    ∀ l : List Char,
      (∀ t, t ≠ [] → t <:+ l → sep.isPrefixOf t = false) →
      splitSepL sep l = [l] := by
  intro l
  induction l with
  | nil => exact fun _ => splitSepL_nil sep
  | cons x xs ih =>
    intro H
    have hnp : ¬ sep.isPrefixOf (x :: xs) = true := by
      intro hcontra
      have := H (x :: xs) (by simp) List.suffix_rfl
      rw [this] at hcontra
      exact Bool.noConfusion hcontra
    rw [splitSepL_cons_neg sep hs x xs hnp,
        ih fun t ht hsuf => H t ht (hsuf.trans (List.suffix_cons x xs))]

/-- Substring containment holds when the pattern occurs after some prefix. -/
lemma containsSeq_at (pat : List Char) (hpat : pat ≠ []) :
    ∀ pre suf : List Char, containsSeq pat (pre ++ (pat ++ suf)) = true := by
  intro pre
  induction pre with
  | nil =>
    intro suf
    cases pat with
    | nil => exact absurd rfl hpat
    | cons a as =>
      simp only [List.nil_append, List.cons_append, containsSeq, List.append_eq]
      have : (a :: as).isPrefixOf (a :: (as ++ suf)) = true := by
        rw [List.isPrefixOf_iff_prefix, ← List.cons_append]
        exact List.prefix_append (a :: as) suf
      rw [this]
      rfl
  | cons x xs ih =>
    intro suf
    simp only [List.cons_append, containsSeq, List.append_eq]
    rw [ih suf]
    simp

/-! ## Infrastructure lemmas: whitespace split -/

lemma wsSplitF_nows (l : List Char) :
    ∀ acc, (∀ c ∈ l, c.isWhitespace = false) → (acc.isEmpty = false ∨ l ≠ []) →
      wsSplitF l acc = [acc.reverse ++ l] := by
  induction l with
  | nil =>
    intro acc _ hne
    rcases hne with h | h
    · simp [wsSplitF, h]
    · exact absurd rfl h
  | cons c cs ih =>
    intro acc hws _
    have hc : c.isWhitespace = false := hws c (by simp)
    simp only [wsSplitF, hc, Bool.false_eq_true, if_false, List.append_eq]
    rw [ih (c :: acc) (fun d hd => hws d (by simp [hd])) (by simp)]
    simp

lemma wsSplitF_word_sep (w : List Char) :
    ∀ acc rest, (∀ c ∈ w, c.isWhitespace = false) → (acc.isEmpty = false ∨ w ≠ []) →
      wsSplitF (w ++ ' ' :: rest) acc = (acc.reverse ++ w) :: wsSplitF rest [] := by
  induction w with
  | nil =>
    intro acc rest _ hne
    have hacc : acc.isEmpty = false := by
      rcases hne with h | h
      · exact h
      · exact absurd rfl h
    simp [wsSplitF, hacc]
  | cons c cs ih =>
    intro acc rest hws _
    have hc : c.isWhitespace = false := hws c (by simp)
    simp only [List.cons_append, wsSplitF, hc, Bool.false_eq_true, if_false, List.append_eq]
    rw [ih (c :: acc) rest (fun d hd => hws d (by simp [hd])) (by simp)]
    simp

/-- `("PRE TOK").split()` = `["PRE", "TOK"]` for whitespace-free nonempty
pieces; the shape `check` and `Money.__init__` rely on. -/
lemma wsSplit_two (w tok : List Char)
    (hw : ∀ c ∈ w, c.isWhitespace = false) (hwne : w ≠ [])
    (ht : ∀ c ∈ tok, c.isWhitespace = false) (htne : tok ≠ []) :
    wsSplit ⟨w ++ ' ' :: tok⟩ = [⟨w⟩, ⟨tok⟩] := by
  unfold wsSplit
  show ((wsSplitF (w ++ ' ' :: tok) []).map fun l => (⟨l⟩ : String)) = _
  rw [wsSplitF_word_sep w [] tok hw (Or.inr hwne)]
  rw [wsSplitF_nows tok [] ht (Or.inr htne)]
  simp

/-! ## The condition grammar of the specification (claim C1)

`Atom` is one conjunct of a condition expression as the spec describes it:
an optional `not` and a token.  `renderCond` produces the concrete
condition string, atoms joined by the literal connective `' and '`. -/

structure Atom where
  neg : Bool
  tok : String
  deriving DecidableEq, Repr

def renderAtom (a : Atom) : String :=
  if a.neg then ⟨'n' :: 'o' :: 't' :: ' ' :: a.tok.data⟩ else a.tok

def renderCond (atoms : List Atom) : String :=
  ⟨joinWith andSep (atoms.map fun a => (renderAtom a).data)⟩

/-- The reference truth table of one atom, from the spec's words: an
all-digit token tests membership of the integer in `visited_states`, any
other token tests membership in `modifiers`, and `not` inverts only this
atom's test. -/
def atomPass (u : UserData) (a : Atom) : Bool :=
  let hit :=
    if pyIsDigit a.tok then decide ((strToNat a.tok : Int) ∈ u.visited_states)
    else decide (a.tok ∈ u.modifiers)
  if a.neg then !hit else hit

/-- Well-formed token: nonempty, whitespace-free, not the reserved
connective `and`, and not beginning with the letters `not` (tokens with
that prefix make `check` raise — claim C1's counterexample). -/
def WFtok (tk : List Char) : Prop :=
  tk ≠ [] ∧ (∀ c ∈ tk, c.isWhitespace = false) ∧ tk ≠ ['a', 'n', 'd'] ∧
    ['n', 'o', 't'].isPrefixOf tk = false

def WFAtom (a : Atom) : Prop := WFtok a.tok.data

instance (a : Atom) : Decidable (WFAtom a) := by
  unfold WFAtom WFtok
  infer_instance

/-- A list with `' and '` as a prefix decomposes explicitly. -/
lemma andSep_prefix_shape (w : List Char) (h : andSep.isPrefixOf w = true) :
    ∃ w2, w = ' ' :: 'a' :: 'n' :: 'd' :: ' ' :: w2 := by
  rw [List.isPrefixOf_iff_prefix] at h
  obtain ⟨t, ht⟩ := h
  exact ⟨t, by rw [← ht]; rfl⟩

lemma notWs_ne_space (c : Char) (h : c.isWhitespace = false) : c ≠ ' ' := by
  intro he
  subst he
  simp at h

/-- No occurrence of `' and '` can begin inside a whitespace-free token,
whatever follows it. -/
lemma bare_no_sep (tk : List Char) (hws : ∀ c ∈ tk, c.isWhitespace = false) :
    ∀ t, t ≠ [] → t <:+ tk → ∀ z, andSep.isPrefixOf (t ++ z) = false := by
  intro t ht hsuf z
  cases t with
  | nil => exact absurd rfl ht
  | cons c cs =>
    have hc : c.isWhitespace = false := hws c (hsuf.subset (by simp))
    by_contra hcontra
    have hcontra2 : andSep.isPrefixOf ((c :: cs) ++ z) = true := by
      cases hval : andSep.isPrefixOf ((c :: cs) ++ z)
      · exact absurd hval hcontra
      · rfl
    obtain ⟨w2, hw⟩ := andSep_prefix_shape _ hcontra2
    rw [List.cons_append] at hw
    have : c = ' ' := by injection hw
    exact notWs_ne_space c hc this

/-- No occurrence of `' and '` can begin inside `"not TOKEN"` when the
token is well formed and the continuation is `' and '` followed by
anything: the only space is the one after `not`, and a token other than
the reserved word `and` cannot complete the separator there. -/
lemma notAtom_no_sep (tk : List Char) (hwf : WFtok tk) :
    ∀ t, t ≠ [] → t <:+ ('n' :: 'o' :: 't' :: ' ' :: tk) →
      ∀ r, andSep.isPrefixOf (t ++ (andSep ++ r)) = false := by
  obtain ⟨hne, hws, hand, _⟩ := hwf
  intro t ht hsuf r
  rcases List.suffix_cons_iff.mp hsuf with h1 | hsuf2
  · subst h1
    by_contra hcontra
    have h2 : andSep.isPrefixOf (('n' :: 'o' :: 't' :: ' ' :: tk) ++ (andSep ++ r)) = true := by
      cases hval : andSep.isPrefixOf (('n' :: 'o' :: 't' :: ' ' :: tk) ++ (andSep ++ r))
      · exact absurd hval hcontra
      · rfl
    obtain ⟨w2, hw⟩ := andSep_prefix_shape _ h2
    have : 'n' = ' ' := by injection hw
    simp at this
  rcases List.suffix_cons_iff.mp hsuf2 with h1 | hsuf3
  · subst h1
    by_contra hcontra
    have h2 : andSep.isPrefixOf (('o' :: 't' :: ' ' :: tk) ++ (andSep ++ r)) = true := by
      cases hval : andSep.isPrefixOf (('o' :: 't' :: ' ' :: tk) ++ (andSep ++ r))
      · exact absurd hval hcontra
      · rfl
    obtain ⟨w2, hw⟩ := andSep_prefix_shape _ h2
    have : 'o' = ' ' := by injection hw
    simp at this
  rcases List.suffix_cons_iff.mp hsuf3 with h1 | hsuf4
  · subst h1
    by_contra hcontra
    have h2 : andSep.isPrefixOf (('t' :: ' ' :: tk) ++ (andSep ++ r)) = true := by
      cases hval : andSep.isPrefixOf (('t' :: ' ' :: tk) ++ (andSep ++ r))
      · exact absurd hval hcontra
      · rfl
    obtain ⟨w2, hw⟩ := andSep_prefix_shape _ h2
    have : 't' = ' ' := by injection hw
    simp at this
  rcases List.suffix_cons_iff.mp hsuf4 with h1 | hsuf5
  · subst h1
    by_contra hcontra
    have h2 : andSep.isPrefixOf ((' ' :: tk) ++ (andSep ++ r)) = true := by
      cases hval : andSep.isPrefixOf ((' ' :: tk) ++ (andSep ++ r))
      · exact absurd hval hcontra
      · rfl
    obtain ⟨w2, hw⟩ := andSep_prefix_shape _ h2
    rw [List.cons_append] at hw
    have htail : tk ++ (andSep ++ r) = 'a' :: 'n' :: 'd' :: ' ' :: w2 := by
      injection hw
    match tk, hne, hand with
    | [c1], _, _ =>
      have hc1 : c1 = 'a' := by injection htail
      have h3 : andSep ++ r = 'n' :: 'd' :: ' ' :: w2 := by
        have := htail
        rw [hc1] at this
        simp only [List.cons_append, List.nil_append] at this
        injection this
      have : ' ' = 'n' := by injection h3
      simp at this
    | [c1, c2], _, _ =>
      have hc1 : c1 = 'a' := by injection htail
      have h3 : c2 :: (andSep ++ r) = 'n' :: 'd' :: ' ' :: w2 := by
        have := htail
        rw [hc1] at this
        simp only [List.cons_append, List.nil_append] at this
        injection this
      have hc2 : c2 = 'n' := by injection h3
      have h4 : andSep ++ r = 'd' :: ' ' :: w2 := by
        have := h3
        rw [hc2] at this
        injection this
      have : ' ' = 'd' := by injection h4
      simp at this
    | [c1, c2, c3], _, hand3 =>
      have hc1 : c1 = 'a' := by injection htail
      have h3 : c2 :: c3 :: (andSep ++ r) = 'n' :: 'd' :: ' ' :: w2 := by
        have := htail
        rw [hc1] at this
        simp only [List.cons_append, List.nil_append] at this
        injection this
      have hc2 : c2 = 'n' := by injection h3
      have h4 : c3 :: (andSep ++ r) = 'd' :: ' ' :: w2 := by
        have := h3
        rw [hc2] at this
        injection this
      have hc3 : c3 = 'd' := by injection h4
      exact hand3 (by rw [hc1, hc2, hc3])
    | c1 :: c2 :: c3 :: c4 :: tl, _, _ =>
      have hc1 : c1 = 'a' := by injection htail
      have h3 : c2 :: c3 :: c4 :: (tl ++ (andSep ++ r)) = 'n' :: 'd' :: ' ' :: w2 := by
        have := htail
        rw [hc1] at this
        simp only [List.cons_append] at this
        injection this
      have hc2 : c2 = 'n' := by injection h3
      have h4 : c3 :: c4 :: (tl ++ (andSep ++ r)) = 'd' :: ' ' :: w2 := by
        have := h3
        rw [hc2] at this
        injection this
      have hc3 : c3 = 'd' := by injection h4
      have h5 : c4 :: (tl ++ (andSep ++ r)) = ' ' :: w2 := by
        have := h4
        rw [hc3] at this
        injection this
      have hc4 : c4 = ' ' := by injection h5
      have : c4.isWhitespace = false := hws c4 (by simp)
      exact notWs_ne_space c4 this hc4
  · exact bare_no_sep tk hws t ht hsuf5 (andSep ++ r)

/-- `' and '` is not a prefix of any nonempty suffix of a rendered
well-formed atom taken alone (no continuation). -/
lemma atom_no_sep_bare (a : Atom) (hwf : WFAtom a) :
    ∀ t, t ≠ [] → t <:+ (renderAtom a).data → andSep.isPrefixOf t = false := by
  obtain ⟨hne, hws, hand, hnpfx⟩ := hwf
  intro t ht hsuf
  unfold renderAtom at hsuf
  by_cases hneg : a.neg
  · rw [if_pos hneg] at hsuf
    have hsuf2 : t <:+ ('n' :: 'o' :: 't' :: ' ' :: a.tok.data) := hsuf
    rcases List.suffix_cons_iff.mp hsuf2 with h1 | hsuf3
    · subst h1
      by_contra hcontra
      have h2 : andSep.isPrefixOf ('n' :: 'o' :: 't' :: ' ' :: a.tok.data) = true := by
        cases hval : andSep.isPrefixOf ('n' :: 'o' :: 't' :: ' ' :: a.tok.data)
        · exact absurd hval hcontra
        · rfl
      obtain ⟨w2, hw⟩ := andSep_prefix_shape _ h2
      have : 'n' = ' ' := by injection hw
      simp at this
    rcases List.suffix_cons_iff.mp hsuf3 with h1 | hsuf4
    · subst h1
      by_contra hcontra
      have h2 : andSep.isPrefixOf ('o' :: 't' :: ' ' :: a.tok.data) = true := by
        cases hval : andSep.isPrefixOf ('o' :: 't' :: ' ' :: a.tok.data)
        · exact absurd hval hcontra
        · rfl
      obtain ⟨w2, hw⟩ := andSep_prefix_shape _ h2
      have : 'o' = ' ' := by injection hw
      simp at this
    rcases List.suffix_cons_iff.mp hsuf4 with h1 | hsuf5
    · subst h1
      by_contra hcontra
      have h2 : andSep.isPrefixOf ('t' :: ' ' :: a.tok.data) = true := by
        cases hval : andSep.isPrefixOf ('t' :: ' ' :: a.tok.data)
        · exact absurd hval hcontra
        · rfl
      obtain ⟨w2, hw⟩ := andSep_prefix_shape _ h2
      have : 't' = ' ' := by injection hw
      simp at this
    rcases List.suffix_cons_iff.mp hsuf5 with h1 | hsuf6
    · subst h1
      by_contra hcontra
      have h2 : andSep.isPrefixOf (' ' :: a.tok.data) = true := by
        cases hval : andSep.isPrefixOf (' ' :: a.tok.data)
        · exact absurd hval hcontra
        · rfl
      obtain ⟨w2, hw⟩ := andSep_prefix_shape _ h2
      have htail : a.tok.data = 'a' :: 'n' :: 'd' :: ' ' :: w2 := by injection hw
      have : (' ' : Char).isWhitespace = false := by
        apply hws
        rw [htail]
        simp
      simp at this
    · by_contra hcontra
      have h2 : andSep.isPrefixOf t = true := by
        cases hval : andSep.isPrefixOf t
        · exact absurd hval hcontra
        · rfl
      obtain ⟨w2, hw⟩ := andSep_prefix_shape _ h2
      subst hw
      have : (' ' : Char).isWhitespace = false := hws ' ' (hsuf6.subset (by simp))
      simp at this
  · rw [if_neg hneg] at hsuf
    by_contra hcontra
    have h2 : andSep.isPrefixOf t = true := by
      cases hval : andSep.isPrefixOf t
      · exact absurd hval hcontra
      · rfl
    obtain ⟨w2, hw⟩ := andSep_prefix_shape _ h2
    subst hw
    have : (' ' : Char).isWhitespace = false := hws ' ' (hsuf.subset (by simp))
    simp at this

/-- Combined form fit for `splitSep_append`: no `' and '` occurrence can
begin inside a rendered well-formed atom followed by the real separator. -/
lemma atom_no_sep_cont (a : Atom) (hwf : WFAtom a) :
    ∀ t, t ≠ [] → t <:+ (renderAtom a).data → ∀ r,
      andSep.isPrefixOf (t ++ andSep ++ r) = false := by
  intro t ht hsuf r
  rw [List.append_assoc]
  unfold renderAtom at hsuf
  by_cases hneg : a.neg
  · rw [if_pos hneg] at hsuf
    exact notAtom_no_sep a.tok.data hwf t ht hsuf r
  · rw [if_neg hneg] at hsuf
    exact bare_no_sep a.tok.data hwf.2.1 t ht hsuf (andSep ++ r)

lemma andSep_ne_nil : andSep ≠ [] := by simp [andSep]

/-- Splitting the rendered condition on `' and '` recovers exactly the
rendered atoms, in order. -/
lemma splitSepL_render :
    ∀ atoms : List Atom, atoms ≠ [] → (∀ a ∈ atoms, WFAtom a) →
      splitSepL andSep (renderCond atoms).data =
        atoms.map fun a => (renderAtom a).data := by
  intro atoms
  induction atoms with
  | nil => exact fun h _ => absurd rfl h
  | cons a rest ih =>
    intro _ hwf
    cases rest with
    | nil =>
      have hshape : (renderCond [a]).data = (renderAtom a).data := rfl
      rw [hshape,
        splitSep_single andSep andSep_ne_nil _ (atom_no_sep_bare a (hwf a (by simp)))]
      rfl
    | cons b rest2 =>
      have hshape : (renderCond (a :: b :: rest2)).data =
          (renderAtom a).data ++ andSep ++
            joinWith andSep ((b :: rest2).map fun x => (renderAtom x).data) := by
        show joinWith andSep ((a :: b :: rest2).map fun x => (renderAtom x).data) = _
        simp only [List.map_cons, joinWith]
      rw [hshape,
        splitSep_append andSep andSep_ne_nil _ _
          (fun t h1 h2 => atom_no_sep_cont a (hwf a (by simp)) t h1 h2 _)]
      have htail : joinWith andSep ((b :: rest2).map fun x => (renderAtom x).data) =
          (renderCond (b :: rest2)).data := rfl
      rw [htail, ih (by simp) fun x hx => hwf x (by simp [hx])]
      rfl

lemma checkAtom_render (u : UserData) (a : Atom) (hwf : WFAtom a) :
    checkAtom u (renderAtom a) = some (atomPass u a) := by
  obtain ⟨hne, hws, hand, hnpfx⟩ := hwf
  by_cases hneg : a.neg
  · have hra : renderAtom a = ⟨'n' :: 'o' :: 't' :: ' ' :: a.tok.data⟩ := by
      unfold renderAtom
      rw [if_pos hneg]
    rw [hra]
    unfold checkAtom
    have hpfx : ['n', 'o', 't'].isPrefixOf
        ((⟨'n' :: 'o' :: 't' :: ' ' :: a.tok.data⟩ : String)).data = true := by
      simp [List.isPrefixOf]
    rw [if_pos hpfx]
    have hw := wsSplit_two ['n', 'o', 't'] a.tok.data (by decide) (by simp) hws hne
    simp only [List.cons_append, List.nil_append] at hw
    rw [hw]
    have heta : ((⟨a.tok.data⟩ : String)) = a.tok := rfl
    simp only [List.get?, heta]
    unfold atomPass memTest
    rw [if_pos hneg]
    simp [Bool.true_xor]
  · have hra : renderAtom a = a.tok := by
      unfold renderAtom
      rw [if_neg hneg]
    rw [hra]
    unfold checkAtom
    simp only [hnpfx, Bool.false_eq_true, if_false]
    unfold atomPass memTest
    rw [if_neg hneg]
    simp [Bool.false_xor]

lemma checkParts_render (u : UserData) :
    ∀ atoms : List Atom, (∀ a ∈ atoms, WFAtom a) →
      checkParts u (atoms.map renderAtom) = some (atoms.all (atomPass u)) := by
  intro atoms
  induction atoms with
  | nil => exact fun _ => rfl
  | cons a rest ih =>
    intro hwf
    simp only [List.map_cons, checkParts, List.all_cons]
    rw [checkAtom_render u a (hwf a (by simp))]
    cases hpass : atomPass u a
    · simp
    · simp only [Bool.true_and]
      exact ih fun x hx => hwf x (by simp [hx])

/-! ## Concrete fixtures shared by witnesses and counterexamples -/

/-- A minimal non-terminal state with an empty reply list. -/
def stEmpty : GameState :=
  { state_index := 1, message_blocks := [], replies := some [], allow_input := none,
    is_lethal := false, is_victory := false }

def stTwo : GameState :=
  { state_index := 2, message_blocks := [], replies := some [], allow_input := none,
    is_lethal := false, is_victory := false }

/-- A deterministic `randint` oracle: always the lower bound. -/
def rng0 : Int → Int → Int := fun lo _ => lo

lemma rng0_ok : RandOk rng0 := fun lo _ h => ⟨le_refl lo, h⟩

def gFix : Graph := buildGameStates [stEmpty, stTwo]

def uFix : UserData :=
  { char_name := "Ava", visited_states := [1], modifiers := [], last_earn := none,
    money := 0, current_state := stEmpty, filtered := [⟨none, "go", 2⟩] }

def uC1 : UserData :=
  { char_name := "Ava", visited_states := [1], modifiers := ["notebook"], last_earn := none,
    money := 0, current_state := stEmpty, filtered := [] }

/-- `uFix` after the transition to state 2 that Python's negative indexing
performs on `choose(0)`. -/
def uFix2 : UserData :=
  { uFix with current_state := stTwo, visited_states := [1, 2], filtered := [] }

/-- `uFix` after a lock transition to state 2 (no `visited_states` append). -/
def uFix3 : UserData := { uFix with current_state := stTwo, filtered := [] }

/-! ## Claim C1 -/

/-- C1 (counterexample): the claim quantifies over every condition made of
atoms that are bare tokens or `not`-negated tokens.  The bare token
`notebook` is such a condition and is present in the session's modifiers,
so the claimed truth table says `evaluate` returns `true`; but
`GameState.check` takes the `startswith('not')` branch and
`part.split()[1]` raises `IndexError` (modelled as `none`), so `check`
returns neither `true` nor `false`. -/
theorem claim_C1_counterexample :
    renderCond [⟨false, "notebook"⟩] = "notebook" ∧
    atomPass uC1 ⟨false, "notebook"⟩ = true ∧
    check uC1 (some "notebook") = none :=
  ⟨rfl, by decide, by decide⟩

/-- C1 (amended): a null condition evaluates to `some true`, and for every
session and every condition rendered from one or more atoms whose tokens
are nonempty, whitespace-free, not the reserved connective `and`, and do
not begin with the letters `not`, `check` returns exactly the strict
conjunction of the atoms' individual membership tests: an all-digit token
tests the integer against `visited_states`, any other token tests
`modifiers`, and `not` inverts only its own atom. -/
theorem claim_C1_amended :
    (∀ u : UserData, check u none = some true) ∧
    ∀ (u : UserData) (atoms : List Atom), atoms ≠ [] → (∀ a ∈ atoms, WFAtom a) →
      check u (some (renderCond atoms)) = some (atoms.all (atomPass u)) := by
  refine ⟨fun u => rfl, ?_⟩
  intro u atoms hne hwf
  show (if containsSeq ['a', 'n', 'd'] (renderCond atoms).data = true then
      checkParts u ((splitSepL andSep (renderCond atoms).data).map fun l => (⟨l⟩ : String))
    else checkAtom u (renderCond atoms)) = some (atoms.all (atomPass u))
  by_cases hand : containsSeq ['a', 'n', 'd'] (renderCond atoms).data = true
  · rw [if_pos hand, splitSepL_render atoms hne hwf, List.map_map]
    have hfuse : ((fun l => (⟨l⟩ : String)) ∘ fun a => (renderAtom a).data) = renderAtom := by
      funext x
      rfl
    rw [hfuse]
    exact checkParts_render u atoms hwf
  · rw [if_neg hand]
    cases atoms with
    | nil => exact absurd rfl hne
    | cons a rest =>
      cases rest with
      | nil =>
        have hrc : renderCond [a] = renderAtom a := rfl
        rw [hrc, checkAtom_render u a (hwf a (by simp))]
        simp
      | cons b rest2 =>
        exfalso
        apply hand
        have hshape : (renderCond (a :: b :: rest2)).data =
            ((renderAtom a).data ++ [' ']) ++
              (['a', 'n', 'd'] ++
                (' ' :: joinWith andSep ((b :: rest2).map fun x => (renderAtom x).data))) := by
          show joinWith andSep ((a :: b :: rest2).map fun x => (renderAtom x).data) = _
          simp only [List.map_cons, joinWith]
          simp [andSep]
        rw [hshape]
        exact containsSeq_at ['a', 'n', 'd'] (by simp) _ _

/-- C1 (witness): the amended theorem applied to a concrete session and a
concrete two-atom condition. -/
theorem claim_C1_witness :
    check uC1 none = some true ∧
    check uC1 (some (renderCond [⟨true, "5"⟩, ⟨false, "torch"⟩])) =
      some (([⟨true, "5"⟩, ⟨false, "torch"⟩] : List Atom).all (atomPass uC1)) :=
  ⟨claim_C1_amended.1 uC1,
   claim_C1_amended.2 uC1 [⟨true, "5"⟩, ⟨false, "torch"⟩] (by simp) (by decide)⟩

/-! ## Preservation lemmas for the presentation engine

`present` mutates `modifiers`, `money`, `last_earn` and `filtered`, but
never `visited_states`, `current_state` or `char_name`. -/

lemma procComp_pres (rng : Int → Int → Int) (s s1 : PState) (c : Component)
    (h : procComp rng s c = some s1) :
    s1.u.visited_states = s.u.visited_states ∧ s1.u.current_state = s.u.current_state ∧
      s1.u.char_name = s.u.char_name ∧ s1.u.filtered = s.u.filtered := by
  cases c with
  | message m =>
    simp only [procComp] at h
    injection h with h2
    subst h2
    exact ⟨rfl, rfl, rfl, rfl⟩
  | mbreak w =>
    simp only [procComp] at h
    cases hf : pyFormat3 s.buf s.u with
    | none => rw [hf] at h; simp at h
    | some m =>
      rw [hf] at h
      injection h with h2
      subst h2
      exact ⟨rfl, rfl, rfl, rfl⟩
  | modifier c =>
    simp only [procComp] at h
    by_cases hp : ['n', 'o', 't'].isPrefixOf c.data = true
    · rw [if_pos hp] at h
      cases hg : (wsSplit c).get? 1 with
      | none => rw [hg] at h; simp at h
      | some tag =>
        rw [hg] at h
        dsimp only at h
        by_cases hm : tag ∈ s.u.modifiers
        · rw [if_pos hm] at h
          injection h with h2
          subst h2
          exact ⟨rfl, rfl, rfl, rfl⟩
        · rw [if_neg hm] at h
          simp at h
    · rw [if_neg hp] at h
      injection h with h2
      subst h2
      exact ⟨rfl, rfl, rfl, rfl⟩
  | money spec =>
    simp only [procComp] at h
    cases hm : moneyAmount rng spec with
    | none => rw [hm] at h; simp at h
    | some a =>
      rw [hm] at h
      injection h with h2
      subst h2
      by_cases ht : MONEY_THRESHOLD ≤ s.u.money + a
      · simp [ht]
      · simp [ht]

lemma procComps_pres (rng : Int → Int → Int) :
    ∀ (cs : List Component) (s s1 : PState), procComps rng s cs = some s1 →
      s1.u.visited_states = s.u.visited_states ∧ s1.u.current_state = s.u.current_state ∧
        s1.u.char_name = s.u.char_name ∧ s1.u.filtered = s.u.filtered := by
  intro cs
  induction cs with
  | nil =>
    intro s s1 h
    simp only [procComps] at h
    injection h with h2
    subst h2
    exact ⟨rfl, rfl, rfl, rfl⟩
  | cons c rest ih =>
    intro s s1 h
    simp only [procComps] at h
    cases hc : procComp rng s c with
    | none => rw [hc] at h; simp at h
    | some smid =>
      rw [hc] at h
      obtain ⟨e1, e2, e3, e4⟩ := procComp_pres rng s smid c hc
      obtain ⟨f1, f2, f3, f4⟩ := ih smid s1 h
      exact ⟨f1.trans e1, f2.trans e2, f3.trans e3, f4.trans e4⟩

lemma procBlocks_pres (rng : Int → Int → Int) :
    ∀ (bs : List Block) (s s1 : PState), procBlocks rng s bs = some s1 →
      s1.u.visited_states = s.u.visited_states ∧ s1.u.current_state = s.u.current_state ∧
        s1.u.char_name = s.u.char_name ∧ s1.u.filtered = s.u.filtered := by
  intro bs
  induction bs with
  | nil =>
    intro s s1 h
    simp only [procBlocks] at h
    injection h with h2
    subst h2
    exact ⟨rfl, rfl, rfl, rfl⟩
  | cons b rest ih =>
    intro s s1 h
    simp only [procBlocks] at h
    cases hb : procBlock rng s b with
    | none => rw [hb] at h; simp at h
    | some smid =>
      rw [hb] at h
      have hmid : smid.u.visited_states = s.u.visited_states ∧
          smid.u.current_state = s.u.current_state ∧
          smid.u.char_name = s.u.char_name ∧ smid.u.filtered = s.u.filtered := by
        unfold procBlock at hb
        cases hck : check s.u b.condition with
        | none => rw [hck] at hb; simp at hb
        | some v =>
          rw [hck] at hb
          cases v with
          | false =>
            simp only at hb
            injection hb with h2
            subst h2
            exact ⟨rfl, rfl, rfl, rfl⟩
          | true =>
            simp only at hb
            exact procComps_pres rng b.content s smid hb
      obtain ⟨e1, e2, e3, e4⟩ := hmid
      obtain ⟨f1, f2, f3, f4⟩ := ih smid s1 h
      exact ⟨f1.trans e1, f2.trans e2, f3.trans e3, f4.trans e4⟩

lemma presentTail_shape (st : GameState) (u : UserData) (out : List String)
    (u2 : UserData) (out2 : List String)
    (h : presentTail st u out = some (some u2, out2)) :
    ∃ filtered, u2 = { u with filtered := filtered } := by
  unfold presentTail at h
  by_cases hl : st.is_lethal = true
  · rw [if_pos hl] at h
    simp at h
  · rw [if_neg hl] at h
    by_cases hv : st.is_victory = true
    · rw [if_pos hv] at h
      simp at h
    · rw [if_neg hv] at h
      cases hr : st.replies with
      | none => rw [hr] at h; simp at h
      | some rs =>
        rw [hr] at h
        dsimp only at h
        cases hfr : filterReplies u rs with
        | none => rw [hfr] at h; simp at h
        | some filtered =>
          rw [hfr] at h
          dsimp only at h
          by_cases hm : renderMenu filtered = ""
          · rw [if_pos hm] at h
            injection h with h2
            injection h2 with h3 h4
            injection h3 with h5
            exact ⟨filtered, h5.symm⟩
          · rw [if_neg hm] at h
            cases hfmt : pyFormat3 (renderMenu filtered) { u with filtered := filtered } with
            | none => rw [hfmt] at h; simp at h
            | some m =>
              rw [hfmt] at h
              injection h with h2
              injection h2 with h3 h4
              injection h3 with h5
              exact ⟨filtered, h5.symm⟩

lemma present_pres (rng : Int → Int → Int) (st : GameState) (u u2 : UserData)
    (out : List String) (h : present rng st u = some (some u2, out)) :
    u2.visited_states = u.visited_states ∧ u2.current_state = u.current_state ∧
      u2.char_name = u.char_name := by
  unfold present at h
  cases hb : procBlocks rng ⟨u, "", []⟩ st.message_blocks with
  | none => rw [hb] at h; simp at h
  | some s =>
    rw [hb] at h
    dsimp only at h
    cases hfl : finalFlush s with
    | none => rw [hfl] at h; simp at h
    | some out1 =>
      rw [hfl] at h
      obtain ⟨e1, e2, e3, _⟩ := procBlocks_pres rng st.message_blocks ⟨u, "", []⟩ s hb
      obtain ⟨filtered, hu2⟩ := presentTail_shape st s.u out1 u2 out h
      subst hu2
      exact ⟨e1, e2, e3⟩

/-! ## Claim C2 -/

/-- C2 (counterexample): selection `0` is out of range under 1-based
indexing, yet `choose(0)` does not emit the invalid-choice message: Python
evaluates `filtered[0 - 1] = filtered[-1]`, the *last* filtered reply, and
transitions, appending to `visited_states`.  Moreover a too-large
selection arriving as a plain text message crashes (the invalid path
replies via `update.callback_query.message`, which is `None`) instead of
emitting the message. -/
theorem claim_C2_counterexample :
    process_choice gFix rng0 true 0 uFix = some (2, some uFix2, []) ∧
    uFix2.visited_states ≠ uFix.visited_states ∧
    process_choice gFix rng0 false 5 uFix = none :=
  ⟨rfl, by decide, rfl⟩

/-- C2 (amended): for selections strictly beyond the end of
`last_offered_replies` (`selection - 1 ≥ length`) arriving through an
inline-button callback, `choose` emits the invalid-choice message, mutates
nothing, and stays in the same state.  (Selection `0` instead resolves to
the last filtered reply by Python's negative indexing, and the invalid
path crashes for plain text messages — see the counterexample.) -/
theorem claim_C2_amended (g : Graph) (rng : Int → Int → Int) (u : UserData) (choice : Int)
    (h : (u.filtered.length : Int) ≤ choice - 1) :
    process_choice g rng true choice u =
      some (u.current_state.state_index, some u, [INVALID_CHOICE]) := by
  have h0 : (0 : Int) ≤ choice - 1 := le_trans (Int.ofNat_nonneg _) h
  have hnone : pyIndex u.filtered (choice - 1) = none := by
    unfold pyIndex
    rw [if_pos h0]
    apply List.get?_eq_none.mpr
    omega
  unfold process_choice
  rw [hnone]
  rfl

/-- C2 (witness): the amended theorem at a concrete out-of-range callback
selection. -/
theorem claim_C2_witness :
    process_choice gFix rng0 true 5 uFix = some (1, some uFix, [INVALID_CHOICE]) :=
  claim_C2_amended gFix rng0 uFix 5 (by decide)

/-! ## Claim C3 -/

/-- C3 (counterexample): a completed lock transition (`input_correct`)
moves `current_state` to the destination and presents it, but appends
nothing to `visited_states`: afterwards the session's current state index
is `2` while `visited_states` is still `[1]`, so `current_state_id` does
not equal the last entry of `visited_states`. -/
theorem claim_C3_counterexample :
    input_correct gFix rng0 2 uFix = some (2, some uFix3, []) ∧
    uFix3.visited_states = [1] ∧ stTwo.state_index = 2 :=
  ⟨rfl, rfl, rfl⟩

/-- C3 (amended): only the in-range `choose` path appends the destination
to `visited_states` — and then the mirror invariant holds, provided the
graph maps the destination id to a state carrying that id; the lock
sub-protocol's correct-code and wrong-code routes change `current_state`
without appending, so the mirror invariant can break after a lock
transition. -/
theorem claim_C3_amended :
    (∀ (g : Graph) (rng : Int → Int → Int) (vc : Bool) (choice : Int) (u : UserData)
        (r : Reply) (st : GameState) (d : Int) (u2 : UserData) (msgs : List String),
      pyIndex u.filtered (choice - 1) = some r →
      dictGet g r.dest_state = some st →
      process_choice g rng vc choice u = some (d, some u2, msgs) →
      d = r.dest_state ∧ u2.visited_states = u.visited_states ++ [r.dest_state] ∧
        u2.current_state = st ∧
        (st.state_index = r.dest_state →
          u2.visited_states.getLast? = some u2.current_state.state_index)) ∧
    (∀ (g : Graph) (rng : Int → Int → Int) (n : Int) (u : UserData)
        (d : Int) (u2 : UserData) (msgs : List String),
      input_correct g rng n u = some (d, some u2, msgs) →
      d = n ∧ u2.visited_states = u.visited_states) ∧
    ∀ (g : Graph) (rng : Int → Int → Int) (n : Int) (u : UserData)
        (d : Int) (u2 : UserData) (msgs : List String),
      input_wrong g rng n u = some (d, some u2, msgs) →
      d = n ∧ u2.visited_states = u.visited_states := by
  refine ⟨?_, ?_, ?_⟩
  · intro g rng vc choice u r st d u2 msgs h1 h2 h3
    unfold process_choice at h3
    rw [h1] at h3
    dsimp only at h3
    rw [h2] at h3
    dsimp only at h3
    cases hpr : present rng st
        { u with current_state := st,
                 visited_states := u.visited_states ++ [r.dest_state] } with
    | none => rw [hpr] at h3; simp at h3
    | some res =>
      obtain ⟨u2opt, msgs1⟩ := res
      rw [hpr] at h3
      dsimp only at h3
      injection h3 with h4
      injection h4 with hd h5
      injection h5 with hu hm
      subst hd
      cases u2opt with
      | none => simp at hu
      | some u2x =>
        injection hu with hu2
        subst hu2
        obtain ⟨e1, e2, _⟩ := present_pres rng st _ _ msgs1 hpr
        refine ⟨rfl, by rw [e1], by rw [e2], ?_⟩
        intro hidx
        rw [e1, e2]
        simp [hidx]
  · intro g rng n u d u2 msgs h
    unfold input_correct at h
    cases hg : dictGet g n with
    | none => rw [hg] at h; simp at h
    | some st =>
      rw [hg] at h
      dsimp only at h
      cases hpr : present rng st { u with current_state := st } with
      | none => rw [hpr] at h; simp at h
      | some res =>
        obtain ⟨u2opt, msgs1⟩ := res
        rw [hpr] at h
        dsimp only at h
        injection h with h4
        injection h4 with hd h5
        injection h5 with hu hm
        subst hd
        cases u2opt with
        | none => simp at hu
        | some u2x =>
          injection hu with hu2
          subst hu2
          obtain ⟨e1, _, _⟩ := present_pres rng st _ _ msgs1 hpr
          exact ⟨rfl, e1⟩
  · intro g rng n u d u2 msgs h
    unfold input_wrong at h
    cases hg : dictGet g n with
    | none => rw [hg] at h; simp at h
    | some st =>
      rw [hg] at h
      dsimp only at h
      cases hpr : present rng st { u with current_state := st } with
      | none => rw [hpr] at h; simp at h
      | some res =>
        obtain ⟨u2opt, msgs1⟩ := res
        rw [hpr] at h
        dsimp only at h
        injection h with h4
        injection h4 with hd h5
        injection h5 with hu hm
        subst hd
        cases u2opt with
        | none => simp at hu
        | some u2x =>
          injection hu with hu2
          subst hu2
          obtain ⟨e1, _, _⟩ := present_pres rng st _ _ msgs1 hpr
          exact ⟨rfl, e1⟩

/-- C3 (witness): the amended theorem at a concrete in-range choice and a
concrete lock transition. -/
theorem claim_C3_witness :
    ((2 : Int) = (2 : Int) ∧ uFix2.visited_states = uFix.visited_states ++ [(2 : Int)] ∧
      uFix2.current_state = stTwo ∧
      (stTwo.state_index = (2 : Int) →
        uFix2.visited_states.getLast? = some uFix2.current_state.state_index)) ∧
    (2 : Int) = (2 : Int) ∧ uFix3.visited_states = uFix.visited_states := by
  refine ⟨?_, ?_⟩
  · exact claim_C3_amended.1 gFix rng0 true 1 uFix ⟨none, "go", 2⟩ stTwo 2 uFix2 []
      (by decide) (by decide) (by decide)
  · exact claim_C3_amended.2.1 gFix rng0 2 uFix 2 uFix3 [] (by decide)

/-! ## Claim C4 -/

/-- C4 (counterexample): the first lock handler is
`re.match(re.compile('ASK', re.I), text)`; `re.match` anchors only at the
start, so `"asking"` — which the claim files under "any other input"
(nudge, no state change) — matches and transitions via
`lock.correct_dest`. -/
theorem claim_C4_counterexample :
    lockDispatch gFix rng0 (2, 20) "asking" uFix = some (2, some uFix3, []) ∧
    some (2, some uFix3, []) ≠
      some (uFix.current_state.state_index, some uFix, [RANDOM_INPUT]) :=
  ⟨rfl, by decide⟩

/-- C4 (amended): while the current state has a lock, text input is
classified in priority order by `re.match` (prefix) semantics: (i) any
text whose first three characters case-fold to `ask` transitions via
`lock.correct_dest`; (ii) otherwise any exactly-three-ASCII-letter token
transitions via `lock.wrong_dest`; (iii) otherwise the literal `"1"`
falls through to ordinary `choose(1)` resolution (any other text starting
with `1` also falls through, with `int(text)` applied to the whole text);
(iv) any other input gets the didn't-understand nudge and leaves the
session unchanged. -/
theorem claim_C4_amended :
    (∀ (g : Graph) (rng : Int → Int → Int) (lc lw : Int) (text : String) (u : UserData)
        (st : GameState) (u2opt : Option UserData) (msgs : List String),
      matchAskI text = true → dictGet g lc = some st →
      present rng st { u with current_state := st } = some (u2opt, msgs) →
      lockDispatch g rng (lc, lw) text u = some (lc, u2opt, msgs)) ∧
    (∀ (g : Graph) (rng : Int → Int → Int) (lc lw : Int) (text : String) (u : UserData)
        (st : GameState) (u2opt : Option UserData) (msgs : List String),
      matchAskI text = false → matchThreeAlpha text = true → dictGet g lw = some st →
      present rng st { u with current_state := st } = some (u2opt, msgs) →
      lockDispatch g rng (lc, lw) text u = some (lw, u2opt, msgs)) ∧
    (∀ (g : Graph) (rng : Int → Int → Int) (lc lw : Int) (u : UserData),
      lockDispatch g rng (lc, lw) "1" u = process_choice g rng false 1 u) ∧
    ∀ (g : Graph) (rng : Int → Int → Int) (lc lw : Int) (text : String) (u : UserData),
      matchAskI text = false → matchThreeAlpha text = false → matchOne text = false →
      lockDispatch g rng (lc, lw) text u =
        some (u.current_state.state_index, some u, [RANDOM_INPUT]) := by
  refine ⟨?_, ?_, ?_, ?_⟩
  · intro g rng lc lw text u st u2opt msgs h1 h2 h3
    unfold lockDispatch
    rw [if_pos h1]
    unfold input_correct
    rw [h2]
    dsimp only
    rw [h3]
  · intro g rng lc lw text u st u2opt msgs h1 h2 h3 h4
    unfold lockDispatch
    rw [if_neg (by rw [h1]; exact Bool.false_ne_true), if_pos h2]
    unfold input_wrong
    rw [h3]
    dsimp only
    rw [h4]
  · intro g rng lc lw u
    unfold lockDispatch
    rw [if_neg (by decide), if_neg (by decide), if_pos (by decide)]
    rfl
  · intro g rng lc lw text u h1 h2 h3
    unfold lockDispatch
    rw [if_neg (by rw [h1]; exact Bool.false_ne_true),
        if_neg (by rw [h2]; exact Bool.false_ne_true),
        if_neg (by rw [h3]; exact Bool.false_ne_true)]
    rfl

/-- C4 (witness): the four classifications at the concrete inputs
`"asking"`, `"xyz"`, `"1"` and `"hi"`. -/
theorem claim_C4_witness :
    lockDispatch gFix rng0 (2, 2) "asking" uFix = some (2, some uFix3, []) ∧
    lockDispatch gFix rng0 (2, 2) "xyz" uFix = some (2, some uFix3, []) ∧
    lockDispatch gFix rng0 (2, 2) "1" uFix = process_choice gFix rng0 false 1 uFix ∧
    lockDispatch gFix rng0 (2, 2) "hi" uFix =
      some (uFix.current_state.state_index, some uFix, [RANDOM_INPUT]) :=
  ⟨claim_C4_amended.1 gFix rng0 2 2 "asking" uFix stTwo (some uFix3) []
      (by decide) (by decide) (by decide),
   claim_C4_amended.2.1 gFix rng0 2 2 "xyz" uFix stTwo (some uFix3) []
      (by decide) (by decide) (by decide) (by decide),
   claim_C4_amended.2.2.1 gFix rng0 2 2 uFix,
   claim_C4_amended.2.2.2 gFix rng0 2 2 "hi" uFix (by decide) (by decide) (by decide)⟩

/-! ## Claim C5 -/

/-- A modifier-component content string that removes `tag`:
`content.startswith('not')` and `content.split()[1] == tag`. -/
def removesTag (c tag : String) : Bool :=
  ['n', 'o', 't'].isPrefixOf c.data && ((wsSplit c).get? 1 == some tag)

/-- No component of the state's blocks is an explicit removal of `tag`. -/
def NoRemoveTag (tag : String) (st : GameState) : Prop :=
  ∀ b ∈ st.message_blocks, ∀ comp ∈ b.content, ∀ c, comp = Component.modifier c →
    removesTag c tag = false

lemma mem_addTag (l : List String) (t x : String) (h : x ∈ l) : x ∈ addTag l t := by
  unfold addTag
  by_cases hm : t ∈ l
  · rwa [if_pos hm]
  · rw [if_neg hm]
    exact List.mem_append_left _ h

lemma procComp_keeps_tag (rng : Int → Int → Int) (s s1 : PState) (c : Component)
    (tag : String) (h : procComp rng s c = some s1)
    (hnr : ∀ m, c = Component.modifier m → removesTag m tag = false)
    (hmem : tag ∈ s.u.modifiers) : tag ∈ s1.u.modifiers := by
  cases c with
  | message m =>
    simp only [procComp] at h
    injection h with h2
    subst h2
    exact hmem
  | mbreak w =>
    simp only [procComp] at h
    cases hf : pyFormat3 s.buf s.u with
    | none => rw [hf] at h; simp at h
    | some m =>
      rw [hf] at h
      injection h with h2
      subst h2
      exact hmem
  | modifier m =>
    have hr : removesTag m tag = false := hnr m rfl
    simp only [procComp] at h
    by_cases hp : ['n', 'o', 't'].isPrefixOf m.data = true
    · rw [if_pos hp] at h
      cases hg : (wsSplit m).get? 1 with
      | none => rw [hg] at h; simp at h
      | some t =>
        rw [hg] at h
        dsimp only at h
        by_cases hm : t ∈ s.u.modifiers
        · rw [if_pos hm] at h
          injection h with h2
          subst h2
          have htt : tag ≠ t := by
            intro he
            subst he
            unfold removesTag at hr
            rw [hp, hg] at hr
            simp at hr
          exact (List.mem_erase_of_ne htt).mpr hmem
        · rw [if_neg hm] at h
          simp at h
    · rw [if_neg hp] at h
      injection h with h2
      subst h2
      exact mem_addTag _ _ _ hmem
  | money spec =>
    simp only [procComp] at h
    cases hm : moneyAmount rng spec with
    | none => rw [hm] at h; simp at h
    | some a =>
      rw [hm] at h
      injection h with h2
      subst h2
      by_cases ht : MONEY_THRESHOLD ≤ s.u.money + a
      · simp only [ht, if_true]
        exact mem_addTag _ _ _ hmem
      · simp only [ht, if_false]
        exact hmem

lemma procComps_keeps_tag (rng : Int → Int → Int) (tag : String) :
    ∀ (cs : List Component) (s s1 : PState), procComps rng s cs = some s1 →
      (∀ comp ∈ cs, ∀ m, comp = Component.modifier m → removesTag m tag = false) →
      tag ∈ s.u.modifiers → tag ∈ s1.u.modifiers := by
  intro cs
  induction cs with
  | nil =>
    intro s s1 h _ hmem
    simp only [procComps] at h
    injection h with h2
    subst h2
    exact hmem
  | cons c rest ih =>
    intro s s1 h hnr hmem
    simp only [procComps] at h
    cases hc : procComp rng s c with
    | none => rw [hc] at h; simp at h
    | some smid =>
      rw [hc] at h
      exact ih smid s1 h (fun comp hcin => hnr comp (by simp [hcin]))
        (procComp_keeps_tag rng s smid c tag hc (fun m hm => hnr c (by simp) m hm) hmem)

lemma procBlocks_keeps_tag (rng : Int → Int → Int) (tag : String) :
    ∀ (bs : List Block) (s s1 : PState), procBlocks rng s bs = some s1 →
      (∀ b ∈ bs, ∀ comp ∈ b.content, ∀ m, comp = Component.modifier m →
        removesTag m tag = false) →
      tag ∈ s.u.modifiers → tag ∈ s1.u.modifiers := by
  intro bs
  induction bs with
  | nil =>
    intro s s1 h _ hmem
    simp only [procBlocks] at h
    injection h with h2
    subst h2
    exact hmem
  | cons b rest ih =>
    intro s s1 h hnr hmem
    simp only [procBlocks] at h
    cases hb : procBlock rng s b with
    | none => rw [hb] at h; simp at h
    | some smid =>
      rw [hb] at h
      have hmid : tag ∈ smid.u.modifiers := by
        unfold procBlock at hb
        cases hck : check s.u b.condition with
        | none => rw [hck] at hb; simp at hb
        | some v =>
          rw [hck] at hb
          cases v with
          | false =>
            simp only at hb
            injection hb with h2
            subst h2
            exact hmem
          | true =>
            simp only at hb
            exact procComps_keeps_tag rng tag b.content s smid hb
              (fun comp hcin => hnr b (by simp) comp hcin) hmem
      exact ih smid s1 h (fun b2 hb2 => hnr b2 (by simp [hb2])) hmid

lemma present_keeps_tag (rng : Int → Int → Int) (st : GameState) (u u2 : UserData)
    (out : List String) (tag : String) (hnr : NoRemoveTag tag st)
    (h : present rng st u = some (some u2, out)) (hmem : tag ∈ u.modifiers) :
    tag ∈ u2.modifiers := by
  unfold present at h
  cases hb : procBlocks rng ⟨u, "", []⟩ st.message_blocks with
  | none => rw [hb] at h; simp at h
  | some s =>
    rw [hb] at h
    dsimp only at h
    cases hfl : finalFlush s with
    | none => rw [hfl] at h; simp at h
    | some out1 =>
      rw [hfl] at h
      have hs : tag ∈ s.u.modifiers :=
        procBlocks_keeps_tag rng tag st.message_blocks ⟨u, "", []⟩ s hb hnr hmem
      obtain ⟨filtered, hu2⟩ := presentTail_shape st s.u out1 u2 out h
      subst hu2
      exact hs

lemma dictGet_mem (g : Graph) (k : Int) (st : GameState) (h : dictGet g k = some st) :
    (k, st) ∈ g.states := by
  unfold dictGet at h
  cases hl : (g.states.filter fun p => decide (p.1 = k)).getLast? with
  | none => rw [hl] at h; simp at h
  | some p =>
    rw [hl] at h
    injection h with h2
    have hpmem : p ∈ g.states.filter fun p => decide (p.1 = k) := by
      have hmem2 : p ∈ (g.states.filter fun p => decide (p.1 = k)).getLast? :=
        Option.mem_def.mpr hl
      obtain ⟨hne2, heq2⟩ := List.mem_getLast?_eq_getLast hmem2
      rw [heq2]
      exact List.getLast_mem hne2
    have hp2 := List.mem_filter.mp hpmem
    have hk : p.1 = k := by simpa using hp2.2
    have : p = (k, st) := by
      cases p
      simp_all
    rw [← this]
    exact hp2.1

/-- C5: a money gain that reaches the threshold adds the `money` tag (at
most once — the set's duplicate-freeness is preserved), a gain leaving
money at 14 adds nothing, and the tag persists through every transition
operation whose destination state carries no explicit `<mod not money/>`
removal component (the engine itself never removes a tag). -/
theorem claim_C5 :
    (∀ (rng : Int → Int → Int) (s s1 : PState) (spec : PyAmount),
      procComp rng s (.money spec) = some s1 →
      (MONEY_THRESHOLD ≤ s1.u.money → "money" ∈ s1.u.modifiers) ∧
      (s1.u.money = 14 → "money" ∉ s.u.modifiers → "money" ∉ s1.u.modifiers) ∧
      (s.u.modifiers.Nodup → s1.u.modifiers.Nodup)) ∧
    (∀ (g : Graph), (∀ p ∈ g.states, NoRemoveTag "money" p.2) →
      ∀ (rng : Int → Int → Int) (vc : Bool) (choice : Int) (u : UserData) (d : Int)
        (u2 : UserData) (msgs : List String),
        process_choice g rng vc choice u = some (d, some u2, msgs) →
        "money" ∈ u.modifiers → "money" ∈ u2.modifiers) ∧
    (∀ (g : Graph), (∀ p ∈ g.states, NoRemoveTag "money" p.2) →
      ∀ (rng : Int → Int → Int) (n : Int) (u : UserData) (d : Int)
        (u2 : UserData) (msgs : List String),
        input_correct g rng n u = some (d, some u2, msgs) →
        "money" ∈ u.modifiers → "money" ∈ u2.modifiers) ∧
    ∀ (g : Graph), (∀ p ∈ g.states, NoRemoveTag "money" p.2) →
      ∀ (rng : Int → Int → Int) (n : Int) (u : UserData) (d : Int)
        (u2 : UserData) (msgs : List String),
        input_wrong g rng n u = some (d, some u2, msgs) →
        "money" ∈ u.modifiers → "money" ∈ u2.modifiers := by
  refine ⟨?_, ?_, ?_, ?_⟩
  · intro rng s s1 spec h
    simp only [procComp] at h
    cases hm : moneyAmount rng spec with
    | none => rw [hm] at h; simp at h
    | some a =>
      rw [hm] at h
      injection h with h2
      subst h2
      by_cases ht : MONEY_THRESHOLD ≤ s.u.money + a
      · refine ⟨fun _ => ?_, fun h14 _ => ?_, fun hnd => ?_⟩
        · simp only [ht, if_true]
          unfold addTag
          by_cases hmem : "money" ∈ s.u.modifiers
          · rw [if_pos hmem]; exact hmem
          · rw [if_neg hmem]; simp
        · exfalso
          simp only [ht, if_true] at h14
          unfold MONEY_THRESHOLD at ht
          omega
        · simp only [ht, if_true]
          unfold addTag
          by_cases hmem : "money" ∈ s.u.modifiers
          · rwa [if_pos hmem]
          · rw [if_neg hmem]
            simp [List.nodup_append, hnd, hmem]
      · refine ⟨fun hth => ?_, fun _ hno => ?_, fun hnd => ?_⟩
        · exfalso
          simp only [ht, if_false] at hth
        · simp only [ht, if_false]
          exact hno
        · simp only [ht, if_false]
          exact hnd
  · intro g hg rng vc choice u d u2 msgs h hmem
    unfold process_choice at h
    cases hi : pyIndex u.filtered (choice - 1) with
    | none =>
      rw [hi] at h
      cases vc with
      | false => simp at h
      | true =>
        simp only [if_true] at h
        injection h with h2
        injection h2 with hd h3
        injection h3 with hu _
        injection hu with hu2
        subst hu2
        exact hmem
    | some r =>
      rw [hi] at h
      dsimp only at h
      cases hgget : dictGet g r.dest_state with
      | none => rw [hgget] at h; simp at h
      | some st =>
        rw [hgget] at h
        dsimp only at h
        cases hpr : present rng st
            { u with current_state := st,
                     visited_states := u.visited_states ++ [r.dest_state] } with
        | none => rw [hpr] at h; simp at h
        | some res =>
          obtain ⟨u2opt, msgs1⟩ := res
          rw [hpr] at h
          dsimp only at h
          injection h with h2
          injection h2 with hd h3
          injection h3 with hu _
          cases u2opt with
          | none => simp at hu
          | some u2x =>
            injection hu with hu2
            subst hu2
            exact present_keeps_tag rng st _ _ msgs1 "money"
              (hg _ (dictGet_mem g r.dest_state st hgget)) hpr hmem
  · intro g hg rng n u d u2 msgs h hmem
    unfold input_correct at h
    cases hgget : dictGet g n with
    | none => rw [hgget] at h; simp at h
    | some st =>
      rw [hgget] at h
      dsimp only at h
      cases hpr : present rng st { u with current_state := st } with
      | none => rw [hpr] at h; simp at h
      | some res =>
        obtain ⟨u2opt, msgs1⟩ := res
        rw [hpr] at h
        dsimp only at h
        injection h with h2
        injection h2 with hd h3
        injection h3 with hu _
        cases u2opt with
        | none => simp at hu
        | some u2x =>
          injection hu with hu2
          subst hu2
          exact present_keeps_tag rng st _ _ msgs1 "money"
            (hg _ (dictGet_mem g n st hgget)) hpr hmem
  · intro g hg rng n u d u2 msgs h hmem
    unfold input_wrong at h
    cases hgget : dictGet g n with
    | none => rw [hgget] at h; simp at h
    | some st =>
      rw [hgget] at h
      dsimp only at h
      cases hpr : present rng st { u with current_state := st } with
      | none => rw [hpr] at h; simp at h
      | some res =>
        obtain ⟨u2opt, msgs1⟩ := res
        rw [hpr] at h
        dsimp only at h
        injection h with h2
        injection h2 with hd h3
        injection h3 with hu _
        cases u2opt with
        | none => simp at hu
        | some u2x =>
          injection hu with hu2
          subst hu2
          exact present_keeps_tag rng st _ _ msgs1 "money"
            (hg _ (dictGet_mem g n st hgget)) hpr hmem

/-- The session state after a 20-unit fixed money gain from `uFix`. -/
def sC5 : PState :=
  ⟨{ uFix with last_earn := some 20, money := 20, modifiers := ["money"] }, "", []⟩

def uM : UserData := { uFix with modifiers := ["money"] }

def uM2 : UserData := { uM with current_state := stTwo, filtered := [] }

/-- C5 (witness): the threshold conjunct at a concrete 20-unit gain and
the lock-transition persistence conjunct on a concrete graph with no
removal components. -/
theorem claim_C5_witness :
    ((MONEY_THRESHOLD ≤ sC5.u.money → "money" ∈ sC5.u.modifiers) ∧
      (sC5.u.money = 14 → "money" ∉ uFix.modifiers → "money" ∉ sC5.u.modifiers) ∧
      (uFix.modifiers.Nodup → sC5.u.modifiers.Nodup)) ∧
    "money" ∈ uM2.modifiers := by
  constructor
  · exact claim_C5.1 rng0 ⟨uFix, "", []⟩ sC5 (.int 20) (by decide)
  · refine claim_C5.2.2.1 gFix ?_ rng0 2 uM 2 uM2 [] (by decide) (by decide)
    intro p hp
    have hb : p.2.message_blocks = [] := by
      simp only [gFix, buildGameStates, List.map_cons, List.map_nil, List.mem_cons,
        List.not_mem_nil, or_false] at hp
      rcases hp with h | h
      · rw [h]; rfl
      · rw [h]; rfl
    intro b hbin
    rw [hb] at hbin
    simp at hbin

/-! ## Claim C6 -/

lemma digit_not_ws (c : Char) (h : c.isDigit = true) : c.isWhitespace = false := by
  cases hw : c.isWhitespace
  · rfl
  · exfalso
    have h2 : c = ' ' ∨ c = '\t' ∨ c = '\r' ∨ c = '\n' := by
      simpa [Char.isWhitespace, or_assoc] using hw
    rcases h2 with h1 | h1 | h1 | h1 <;> (subst h1; simp [Char.isDigit] at h)

lemma nows_dropWhile (l : List Char) (h : ∀ c ∈ l, c.isWhitespace = false) :
    l.dropWhile Char.isWhitespace = l := by
  cases l with
  | nil => rfl
  | cons c cs =>
    have hc : c.isWhitespace = false := h c (by simp)
    simp [List.dropWhile, hc]

/-- Python `int` on an all-digit string parses its decimal value. -/
lemma pyIntParse_digits (ds : List Char) (h : pyIsDigitL ds = true) :
    pyIntParseL ds = some ((digitsToNat ds : Int)) := by
  have hdig : ∀ c ∈ ds, c.isDigit = true := by
    intro c hc
    unfold pyIsDigitL at h
    simp only [Bool.and_eq_true, List.all_eq_true] at h
    exact h.2 c hc
  have hnws : ∀ c ∈ ds, c.isWhitespace = false := fun c hc => digit_not_ws c (hdig c hc)
  have hnwsr : ∀ c ∈ ds.reverse, c.isWhitespace = false := by
    intro c hc
    exact hnws c (List.mem_reverse.mp hc)
  unfold pyIntParseL
  rw [nows_dropWhile ds hnws, nows_dropWhile ds.reverse hnwsr, List.reverse_reverse]
  cases ds with
  | nil => simp [pyIsDigitL] at h
  | cons c rest =>
    have hc : c.isDigit = true := hdig c (by simp)
    have hcm : c ≠ '-' := by
      intro he
      subst he
      simp [Char.isDigit] at hc
    have hcp : c ≠ '+' := by
      intro he
      subst he
      simp [Char.isDigit] at hc
    simp only [hcm, if_false, hcp, h, if_true]

/-- The session update a resolved `money` component performs
(`main.py:88-92`). -/
def moneyApply (u : UserData) (a : Int) : UserData :=
  if MONEY_THRESHOLD ≤ u.money + a then
    { u with last_earn := some a, money := u.money + a, modifiers := addTag u.modifiers "money" }
  else
    { u with last_earn := some a, money := u.money + a }

/-- Evaluation of one `money` component when the amount resolves. -/
lemma procComp_money_eval (rng : Int → Int → Int) (s : PState) (spec : PyAmount) (a : Int)
    (h : moneyAmount rng spec = some a) :
    procComp rng s (.money spec) = some ⟨moneyApply s.u a, s.buf, s.out⟩ := by
  simp only [procComp]
  rw [h]
  rfl

lemma money_fields (u : UserData) (a : Int) :
    (moneyApply u a).money = u.money + a ∧ (moneyApply u a).last_earn = some a := by
  unfold moneyApply
  by_cases ht : MONEY_THRESHOLD ≤ u.money + a
  · simp [ht]
  · simp [ht]

/-- C6: a `MoneyGain` whose spec is the Python integer `v` adds exactly
`v` to `money` and records it in `last_earn`; one whose spec is a random
range string (second word an integer literal `N ≥ 1`) adds an amount the
`randint` oracle draws from `[1, N]` inclusive, records it in
`last_earn`, and neither form fails. -/
theorem claim_C6 :
    (∀ (rng : Int → Int → Int) (s : PState) (v : Int),
      ∃ s1, procComp rng s (.money (.int v)) = some s1 ∧
        s1.u.money = s.u.money + v ∧ s1.u.last_earn = some v) ∧
    ∀ (rng : Int → Int → Int), RandOk rng →
      ∀ (s : PState) (w ds : List Char),
        w ≠ [] → (∀ c ∈ w, c.isWhitespace = false) → pyIsDigitL ds = true →
        1 ≤ (digitsToNat ds : Int) →
        ∃ s1 a, procComp rng s (.money (.str ⟨w ++ ' ' :: ds⟩)) = some s1 ∧
          1 ≤ a ∧ a ≤ (digitsToNat ds : Int) ∧
          s1.u.money = s.u.money + a ∧ s1.u.last_earn = some a := by
  constructor
  · intro rng s v
    exact ⟨_, procComp_money_eval rng s (.int v) v rfl,
      (money_fields s.u v).1, (money_fields s.u v).2⟩
  · intro rng hrng s w ds hwne hwnws hds hpos
    have hdnws : ∀ c ∈ ds, c.isWhitespace = false := by
      intro c hc
      refine digit_not_ws c ?_
      unfold pyIsDigitL at hds
      simp only [Bool.and_eq_true, List.all_eq_true] at hds
      exact hds.2 c hc
    have hdne : ds ≠ [] := by
      intro he
      subst he
      simp [pyIsDigitL] at hds
    have hma : moneyAmount rng (.str ⟨w ++ ' ' :: ds⟩) =
        some (rng 1 (digitsToNat ds : Int)) := by
      unfold moneyAmount
      dsimp only
      rw [wsSplit_two w ds hwnws hwne hdnws hdne]
      simp only [List.get?]
      rw [show pyIntParse ⟨ds⟩ = pyIntParseL ds from rfl, pyIntParse_digits ds hds]
      unfold pyRandint
      dsimp only
      rw [if_neg (by omega)]
    obtain ⟨hlo, hhi⟩ := hrng 1 (digitsToNat ds : Int) hpos
    exact ⟨_, rng 1 (digitsToNat ds : Int),
      procComp_money_eval rng s _ _ hma, hlo, hhi,
      (money_fields s.u (rng 1 (digitsToNat ds : Int))).1,
      (money_fields s.u (rng 1 (digitsToNat ds : Int))).2⟩

/-- C6 (witness): a fixed gain of 7 and a random-range gain
`<money random 5/>` under the always-lower-bound oracle. -/
theorem claim_C6_witness :
    (∃ s1, procComp rng0 ⟨uFix, "", []⟩ (.money (.int 7)) = some s1 ∧
      s1.u.money = uFix.money + 7 ∧ s1.u.last_earn = some 7) ∧
    ∃ s1 a, procComp rng0 ⟨uFix, "", []⟩
        (.money (.str ⟨['r', 'a', 'n', 'd', 'o', 'm'] ++ ' ' :: ['5']⟩)) = some s1 ∧
      1 ≤ a ∧ a ≤ (digitsToNat ['5'] : Int) ∧
      s1.u.money = uFix.money + a ∧ s1.u.last_earn = some a :=
  ⟨claim_C6.1 rng0 ⟨uFix, "", []⟩ 7,
   claim_C6.2 rng0 rng0_ok ⟨uFix, "", []⟩ ['r', 'a', 'n', 'd', 'o', 'm'] ['5']
     (by decide) (by decide) (by decide) (by decide)⟩

/-! ## Claim C7 -/

def stNoTorch : GameState :=
  { stEmpty with message_blocks := [⟨none, [.modifier "not torch"]⟩] }

/-- C7 (the code at the claim's input): removing a tag that is not in the
session's modifiers is *not* a no-op — `user_data['modifiers'].remove(...)`
is Python `set.remove`, which raises `KeyError`, so the component and the
whole presentation crash (`none`).  The other halves of the claim do hold:
removing a present tag removes it and a duplicate add leaves the set
unchanged. -/
theorem claim_C7_code_crash :
    procComp rng0 ⟨uFix, "", []⟩ (.modifier "not torch") = none ∧
    present rng0 stNoTorch uFix = none ∧
    procComp rng0 ⟨uM, "", []⟩ (.modifier "not money") =
      some ⟨{ uM with modifiers := [] }, "", []⟩ ∧
    procComp rng0 ⟨uM, "", []⟩ (.modifier "money") = some ⟨uM, "", []⟩ :=
  ⟨rfl, rfl, rfl, rfl⟩

/-! ## Claim C8 -/

/-- C8 (counterexample): a `Break` reached with an empty buffer still
emits — the emitted list is `[""]`, not `[]`: the skip-if-empty guard
exists only at the final flush (`main.py:93`), not in the `mbreak` branch
(`main.py:70-80`). -/
theorem claim_C8_counterexample :
    procComps rng0 ⟨uFix, "", []⟩ [.mbreak 0] = some ⟨uFix, "", [""]⟩ ∧
    ([""] : List String) ≠ ([] : List String) :=
  ⟨rfl, by decide⟩

/-- C8 (amended): a `Break` flushes the buffer unconditionally — it
interpolates the placeholders from the session values current at flush
time, emits the result even when the buffer is empty or whitespace-only,
clears the buffer, and processing continues; the skip-if-empty-or-
whitespace rule governs only the final flush after all blocks, which
emits the interpolated buffer exactly when it is nonempty and not pure
whitespace. -/
theorem claim_C8_amended :
    (∀ (rng : Int → Int → Int) (s : PState) (w : Nat) (cs : List Component) (m : String),
      pyFormat3 s.buf s.u = some m →
      procComps rng s (.mbreak w :: cs) = procComps rng ⟨s.u, "", s.out ++ [m]⟩ cs) ∧
    (∀ s : PState, s.buf = "" ∨ pyIsSpace s.buf = true → finalFlush s = some s.out) ∧
    ∀ (s : PState) (m : String), s.buf ≠ "" → pyIsSpace s.buf = false →
      pyFormat3 s.buf s.u = some m → finalFlush s = some (s.out ++ [m]) := by
  refine ⟨?_, ?_, ?_⟩
  · intro rng s w cs m h
    simp only [procComps, procComp]
    rw [h]
  · intro s h
    unfold finalFlush
    have hneg : ¬(s.buf ≠ "" ∧ pyIsSpace s.buf = false) := by
      rcases h with h1 | h1
      · intro hc
        exact hc.1 h1
      · intro hc
        rw [h1] at hc
        exact Bool.noConfusion hc.2
    rw [if_neg hneg]
  · intro s m hne hsp h
    unfold finalFlush
    rw [if_pos ⟨hne, hsp⟩, h]

def sC8 : PState := ⟨uFix, "hey {money}", ["x"]⟩

/-- C8 (witness): the unconditional `Break` flush with interpolation at a
concrete buffer, the skipped final flush on a whitespace buffer, and the
taken final flush. -/
theorem claim_C8_witness :
    procComps rng0 sC8 [Component.mbreak 0] = procComps rng0 ⟨uFix, "", ["x", "hey 0"]⟩ [] ∧
    finalFlush ⟨uFix, " ", ["x"]⟩ = some ["x"] ∧
    finalFlush sC8 = some (["x"] ++ ["hey 0"]) :=
  ⟨claim_C8_amended.1 rng0 sC8 0 [] "hey 0" (by decide),
   claim_C8_amended.2.1 ⟨uFix, " ", ["x"]⟩ (Or.inr (by decide)),
   claim_C8_amended.2.2 sC8 "hey 0" (by decide) (by decide) (by decide)⟩

/-! ## Claim C9 -/

lemma getLast?_map {α β : Type} (f : α → β) :
    ∀ l : List α, (l.map f).getLast? = (l.getLast?).map f := by
  intro l
  induction l with
  | nil => rfl
  | cons a rest ih =>
    cases rest with
    | nil => rfl
    | cons b t =>
      rw [List.map_cons, List.map_cons, List.getLast?_cons_cons, ← List.map_cons,
        List.getLast?_cons_cons, ih]

lemma filter_map_key (k : Int) :
    ∀ l : List GameState,
      ((l.map fun s => (s.state_index, s)).filter fun p => decide (p.1 = k)) =
        (l.filter fun s => decide (s.state_index = k)).map fun s => (s.state_index, s) := by
  intro l
  induction l with
  | nil => rfl
  | cons s rest ih =>
    simp only [List.map_cons, List.filter_cons]
    by_cases hk : s.state_index = k
    · simp [hk, ih]
    · simp [hk, ih]

/-- A two-section script whose sections both carry state id 5 and whose
replies point at the undefined state 7. -/
def script9 : String := "### 5\n\nHello\n\n> go (7)\n----\n### 5\n\nBye\n\n> go (7)"

def st9A : GameState :=
  { state_index := 5, message_blocks := [⟨none, [.message "Hello"]⟩],
    replies := some [⟨none, "go", 7⟩], allow_input := none,
    is_lethal := false, is_victory := false }

def st9B : GameState := { st9A with message_blocks := [⟨none, [.message "Bye"]⟩] }

/-- C9 (counterexample): loading a script with a duplicate state id and
dangling reply destinations does not abort — parsing succeeds, the dict
comprehension silently keeps the second definition of id 5, and the
missing state 7 is simply absent from the resulting running graph. -/
theorem claim_C9_counterexample :
    parseGame script9 = some [st9A, st9B] ∧
    dictGet (buildGameStates [st9A, st9B]) 5 = some st9B ∧
    dictGet (buildGameStates [st9A, st9B]) 7 = none :=
  ⟨rfl, rfl, rfl⟩

/-- C9 (amended): startup performs no validation at all: building the
graph always succeeds, a duplicate state id silently resolves to the last
parsed definition (dict-comprehension semantics), and a reply destination
referencing a nonexistent state id is only discovered at runtime, when
the transition that resolves it raises a lookup failure. -/
theorem claim_C9_amended :
    (∀ (l : List GameState) (k : Int),
      dictGet (buildGameStates l) k =
        (l.filter fun s => decide (s.state_index = k)).getLast?) ∧
    ∀ (g : Graph) (rng : Int → Int → Int) (vc : Bool) (choice : Int) (u : UserData)
      (r : Reply),
      pyIndex u.filtered (choice - 1) = some r → dictGet g r.dest_state = none →
      process_choice g rng vc choice u = none := by
  constructor
  · intro l k
    unfold dictGet buildGameStates
    show ((((l.map fun s => (s.state_index, s)).filter
        fun p => decide (p.1 = k)).getLast?).map fun p => p.2) = _
    rw [filter_map_key k l, getLast?_map]
    cases (l.filter fun s => decide (s.state_index = k)).getLast? <;> rfl
  · intro g rng vc choice u r h1 h2
    unfold process_choice
    rw [h1]
    dsimp only
    rw [h2]

def u9 : UserData := { uFix with filtered := [⟨none, "go", 7⟩] }

/-- C9 (witness): duplicate-id lookup semantics on the parsed two-section
graph, and the runtime failure of a transition to the dangling id 7. -/
theorem claim_C9_witness :
    dictGet (buildGameStates [st9A, st9B]) 5 =
      ([st9A, st9B].filter fun s => decide (s.state_index = 5)).getLast? ∧
    process_choice (buildGameStates [st9A, st9B]) rng0 true 1 u9 = none :=
  ⟨claim_C9_amended.1 [st9A, st9B] 5,
   claim_C9_amended.2 (buildGameStates [st9A, st9B]) rng0 true 1 u9 ⟨none, "go", 7⟩
     (by decide) (by decide)⟩

/-! ## Claim C10

The document-order list of `<input …/>` specs of a section body, built
from the same scanners the parser uses but without the threaded mutable
field; the claim is that the parser's `state_input` threading equals the
last entry of this list, consumed and reset per section. -/

/-- The input spec a single `comp_ptn` piece contributes. -/
def isInputPiece (p : List Char) : Option (Int × Int) :=
  if ['<', 'i', 'n', 'p', 'u', 't'].isPrefixOf p then parseInputFull p else none

/-- All input specs of one block-content text, in document order. -/
def inputSpecsComps (text : List Char) : List (Int × Int) :=
  (scanSplit compTryAt text).filterMap isInputPiece

/-- The input specs one `if_ptn` piece contributes (an `<if>` span
contributes the specs of its inner content). -/
def pieceSpecs (p : List Char) : List (Int × Int) :=
  if ['<', 'i', 'f'].isPrefixOf p then
    match parseIfFull p with
    | some q => inputSpecsComps q.2
    | none => []
  else inputSpecsComps p

/-- All input specs of a whole message body, in document order,
including tags inside `<if>` spans. -/
def inputSpecsBlocks (text : List Char) : List (Int × Int) :=
  ((scanSplit ifTryAt text).map pieceSpecs).flatten

/-- The message-body text of one state section: everything between the
header and the reply paragraph (choice states) or all paragraphs
(terminal states); the reply paragraph itself never contributes. -/
def sectionBodyText (desc : List Char) : List Char :=
  match splitSepL paraSep desc with
  | [] => []
  | _ :: body =>
    match body.getLast? with
    | none => []
    | some lastP =>
      if lastP.head? = some '>' then joinWith paraSep body.dropLast
      else joinWith paraSep body

/-- Parsing every section with a fresh (empty) pending-lock field — the
reference against which the threaded `state_input` is compared. -/
def seqParse : List (List Char) → Option (List GameState)
  | [] => some []
  | d :: ds =>
    match parseSection none d with
    | none => none
    | some (st, _) =>
      match seqParse ds with
      | none => none
      | some sts => some (st :: sts)

lemma getLast?_or_cons {α : Type} :
    ∀ (l : List α) (x : α) (si : Option α),
      ((x :: l).getLast?).or si = (l.getLast?).or (some x) := by
  intro l
  induction l with
  | nil => intro x si; rfl
  | cons b t ih =>
    intro x si
    rw [List.getLast?_cons_cons, ih b si, ih b (some x)]

lemma or_append_getLast? {α : Type} :
    ∀ (l1 l2 : List α) (si : Option α),
      ((l1 ++ l2).getLast?).or si = (l2.getLast?).or ((l1.getLast?).or si) := by
  intro l1
  induction l1 with
  | nil => intro l2 si; rfl
  | cons x t ih =>
    intro l2 si
    rw [List.cons_append, getLast?_or_cons (t ++ l2) x si, ih l2 (some x),
      getLast?_or_cons t x si]

lemma prefix_shape (pre p : List Char) (h : pre.isPrefixOf p = true) :
    ∃ t, p = pre ++ t := by
  rw [List.isPrefixOf_iff_prefix] at h
  obtain ⟨t, ht⟩ := h
  exact ⟨t, ht.symm⟩

lemma input_not_mod (p : List Char) (h : ['<', 'i', 'n', 'p', 'u', 't'].isPrefixOf p = true) :
    ['<', 'm', 'o', 'd'].isPrefixOf p = false := by
  obtain ⟨t, ht⟩ := prefix_shape _ p h
  subst ht
  have hmi : (('m' : Char) == 'i') = false := by decide
  simp [List.isPrefixOf, hmi]

/-- The parser-state effect of one `comp_ptn` piece: an `<input>` piece
overwrites the pending lock, every other piece leaves it alone. -/
lemma compStep_lock (si : Option (Int × Int)) (acc : List Component) (p : List Char)
    (acc1 : List Component) (si1 : Option (Int × Int))
    (h : compStep si acc p = some (acc1, si1)) :
    si1 = (isInputPiece p).or si := by
  unfold compStep at h
  unfold isInputPiece
  by_cases hin : ['<', 'i', 'n', 'p', 'u', 't'].isPrefixOf p = true
  · rw [if_pos hin]
    rw [if_neg (by rw [input_not_mod p hin]; exact Bool.false_ne_true), if_pos hin] at h
    cases hp : parseInputFull p with
    | none => rw [hp] at h; simp at h
    | some cw =>
      rw [hp] at h
      injection h with h2
      injection h2 with _ hsi
      rw [← hsi]
      rfl
  · rw [if_neg hin]
    show si1 = Option.or none si
    show si1 = si
    by_cases h1 : ['<', 'm', 'o', 'd'].isPrefixOf p = true
    · rw [if_pos h1] at h
      cases hp : parseTagBody ['m', 'o', 'd'] p with
      | none => rw [hp] at h; simp at h
      | some content =>
        rw [hp] at h
        injection h with h2
        injection h2 with _ hsi
        exact hsi.symm
    · rw [if_neg h1, if_neg hin] at h
      by_cases h2 : ['<', 'm', 'b'].isPrefixOf p = true
      · rw [if_pos h2] at h
        cases hp : parseMbFull p with
        | none => rw [hp] at h; simp at h
        | some w =>
          rw [hp] at h
          injection h with h3
          injection h3 with _ hsi
          exact hsi.symm
      · rw [if_neg h2] at h
        by_cases h3 : ['<', 'm', 'o', 'n', 'e', 'y'].isPrefixOf p = true
        · rw [if_pos h3] at h
          cases hp : parseTagBody ['m', 'o', 'n', 'e', 'y'] p with
          | none => rw [hp] at h; simp at h
          | some content =>
            rw [hp] at h
            injection h with h4
            injection h4 with _ hsi
            exact hsi.symm
        · rw [if_neg h3] at h
          by_cases h4 : (p.isEmpty || pyIsSpaceL p) = true
          · rw [if_pos h4] at h
            injection h with h5
            injection h5 with _ hsi
            exact hsi.symm
          · rw [if_neg h4] at h
            injection h with h5
            injection h5 with _ hsi
            exact hsi.symm

lemma compFold_lock :
    ∀ (ps : List (List Char)) (si : Option (Int × Int)) (acc comps : List Component)
      (si1 : Option (Int × Int)),
      compFold si acc ps = some (comps, si1) →
      si1 = ((ps.filterMap isInputPiece).getLast?).or si := by
  intro ps
  induction ps with
  | nil =>
    intro si acc comps si1 h
    simp only [compFold] at h
    injection h with h2
    injection h2 with _ hsi
    exact hsi.symm
  | cons p ps ih =>
    intro si acc comps si1 h
    simp only [compFold] at h
    cases hc : compStep si acc p with
    | none => rw [hc] at h; simp at h
    | some res =>
      obtain ⟨acc1, simid⟩ := res
      rw [hc] at h
      have hmid : simid = (isInputPiece p).or si := compStep_lock si acc p acc1 simid hc
      have hrec := ih simid acc1 comps si1 h
      rw [hrec, hmid]
      rw [List.filterMap_cons]
      cases hip : isInputPiece p with
      | none => rfl
      | some cw =>
        rw [getLast?_or_cons]
        rfl

lemma break_to_components_lock (si : Option (Int × Int)) (text : List Char)
    (comps : List Component) (si1 : Option (Int × Int))
    (h : break_to_components si text = some (comps, si1)) :
    si1 = ((inputSpecsComps text).getLast?).or si :=
  compFold_lock (scanSplit compTryAt text) si [] comps si1 h

lemma blockFold_lock :
    ∀ (ps : List (List Char)) (si : Option (Int × Int)) (acc blocks : List Block)
      (si1 : Option (Int × Int)),
      blockFold si acc ps = some (blocks, si1) →
      si1 = (((ps.map pieceSpecs).flatten).getLast?).or si := by
  intro ps
  induction ps with
  | nil =>
    intro si acc blocks si1 h
    simp only [blockFold] at h
    injection h with h2
    injection h2 with _ hsi
    exact hsi.symm
  | cons p ps ih =>
    intro si acc blocks si1 h
    simp only [blockFold] at h
    rw [List.map_cons, List.flatten_cons]
    by_cases hif : ['<', 'i', 'f'].isPrefixOf p = true
    · rw [if_pos hif] at h
      cases hpf : parseIfFull p with
      | none => rw [hpf] at h; simp at h
      | some q =>
        rw [hpf] at h
        dsimp only at h
        cases hbc : break_to_components si q.2 with
        | none =>
          rw [hbc] at h
          simp at h
        | some res =>
          obtain ⟨comps, simid⟩ := res
          rw [hbc] at h
          have hmid : simid = ((inputSpecsComps q.2).getLast?).or si :=
            break_to_components_lock si q.2 comps simid hbc
          have hrec := ih simid _ blocks si1 h
          rw [hrec, hmid, or_append_getLast?]
          have hps : pieceSpecs p = inputSpecsComps q.2 := by
            unfold pieceSpecs
            rw [if_pos hif, hpf]
          rw [hps]
    · rw [if_neg hif] at h
      cases hbc : break_to_components si p with
      | none => rw [hbc] at h; simp at h
      | some res =>
        obtain ⟨comps, simid⟩ := res
        rw [hbc] at h
        have hmid : simid = ((inputSpecsComps p).getLast?).or si :=
          break_to_components_lock si p comps simid hbc
        have hrec := ih simid _ blocks si1 h
        rw [hrec, hmid, or_append_getLast?]
        have hps : pieceSpecs p = inputSpecsComps p := by
          unfold pieceSpecs
          rw [if_neg hif]
        rw [hps]

lemma break_to_blocks_lock (si : Option (Int × Int)) (text : List Char)
    (blocks : List Block) (si1 : Option (Int × Int))
    (h : break_to_blocks si text = some (blocks, si1)) :
    si1 = ((inputSpecsBlocks text).getLast?).or si :=
  blockFold_lock (scanSplit ifTryAt text) si [] blocks si1 h

/-- After every section, successful or not in carrying a lock, the
pending `state_input` is left empty. -/
lemma parseSection_reset (si : Option (Int × Int)) (d : List Char) (st : GameState)
    (si1 : Option (Int × Int)) (h : parseSection si d = some (st, si1)) : si1 = none := by
  unfold parseSection at h
  cases hsp : splitSepL paraSep d with
  | nil => rw [hsp] at h; simp at h
  | cons header body =>
    rw [hsp] at h
    dsimp only at h
    cases hint : pyIntParseL (header.drop 4) with
    | none => rw [hint] at h; simp at h
    | some idx =>
      rw [hint] at h
      dsimp only at h
      cases hlast : body.getLast? with
      | none => rw [hlast] at h; simp at h
      | some lastP =>
        rw [hlast] at h
        dsimp only at h
        cases hhead : lastP.head? with
        | none => rw [hhead] at h; simp at h
        | some c0 =>
          rw [hhead] at h
          dsimp only at h
          by_cases hc : c0 = '>'
          · rw [if_pos hc] at h
            cases hbb : break_to_blocks si (joinWith paraSep body.dropLast) with
            | none => rw [hbb] at h; simp at h
            | some res =>
              obtain ⟨blocks, si2⟩ := res
              rw [hbb] at h
              injection h with h2
              injection h2 with _ hsi
              exact hsi.symm
          · rw [if_neg hc] at h
            by_cases hwm : containsSeq wastedMarker lastP = true
            · rw [if_pos hwm] at h
              cases hbb : break_to_blocks si (joinWith paraSep body) with
              | none => rw [hbb] at h; simp at h
              | some res =>
                obtain ⟨blocks, si2⟩ := res
                rw [hbb] at h
                injection h with h2
                injection h2 with _ hsi
                exact hsi.symm
            · rw [if_neg hwm] at h
              cases hbb : break_to_blocks si (joinWith paraSep body) with
              | none => rw [hbb] at h; simp at h
              | some res =>
                obtain ⟨blocks, si2⟩ := res
                rw [hbb] at h
                injection h with h2
                injection h2 with _ hsi
                exact hsi.symm

/-- The lock a section's parsed state carries is the last input spec of
its own message body, overriding any pending spec handed in. -/
lemma parseSection_lock (si : Option (Int × Int)) (d : List Char) (st : GameState)
    (si1 : Option (Int × Int)) (h : parseSection si d = some (st, si1)) :
    st.allow_input = ((inputSpecsBlocks (sectionBodyText d)).getLast?).or si := by
  unfold parseSection at h
  unfold sectionBodyText
  cases hsp : splitSepL paraSep d with
  | nil => rw [hsp] at h; simp at h
  | cons header body =>
    rw [hsp] at h
    dsimp only at h
    dsimp only
    cases hint : pyIntParseL (header.drop 4) with
    | none => rw [hint] at h; simp at h
    | some idx =>
      rw [hint] at h
      dsimp only at h
      cases hlast : body.getLast? with
      | none => rw [hlast] at h; simp at h
      | some lastP =>
        rw [hlast] at h
        dsimp only at h
        dsimp only
        cases hhead : lastP.head? with
        | none => rw [hhead] at h; simp at h
        | some c0 =>
          rw [hhead] at h
          dsimp only at h
          by_cases hc : c0 = '>'
          · rw [if_pos hc] at h
            rw [if_pos (by rw [hc])]
            cases hbb : break_to_blocks si (joinWith paraSep body.dropLast) with
            | none => rw [hbb] at h; simp at h
            | some res =>
              obtain ⟨blocks, si2⟩ := res
              rw [hbb] at h
              injection h with h2
              injection h2 with hst _
              rw [← hst]
              exact break_to_blocks_lock si _ blocks si2 hbb
          · rw [if_neg hc] at h
            rw [if_neg (by intro hcc; exact hc (Option.some.inj hcc))]
            by_cases hwm : containsSeq wastedMarker lastP = true
            · rw [if_pos hwm] at h
              cases hbb : break_to_blocks si (joinWith paraSep body) with
              | none => rw [hbb] at h; simp at h
              | some res =>
                obtain ⟨blocks, si2⟩ := res
                rw [hbb] at h
                injection h with h2
                injection h2 with hst _
                rw [← hst]
                exact break_to_blocks_lock si _ blocks si2 hbb
            · rw [if_neg hwm] at h
              cases hbb : break_to_blocks si (joinWith paraSep body) with
              | none => rw [hbb] at h; simp at h
              | some res =>
                obtain ⟨blocks, si2⟩ := res
                rw [hbb] at h
                injection h with h2
                injection h2 with hst _
                rw [← hst]
                exact break_to_blocks_lock si _ blocks si2 hbb

lemma parseSections_fresh :
    ∀ ds : List (List Char), parseSections none ds = seqParse ds := by
  intro ds
  induction ds with
  | nil => rfl
  | cons d ds ih =>
    simp only [parseSections, seqParse]
    cases hps : parseSection none d with
    | none => rfl
    | some res =>
      obtain ⟨st, si1⟩ := res
      have hres : si1 = none := parseSection_reset none d st si1 hps
      subst hres
      dsimp only
      rw [ih]

lemma or_none {α : Type} (o : Option α) : o.or none = o := by
  cases o <;> rfl

lemma getLast?_isSome_iff {α : Type} (l : List α) :
    l.getLast?.isSome = true ↔ l ≠ [] := by
  cases l with
  | nil => simp
  | cons x t =>
    constructor
    · intro _
      simp
    · intro _
      have h2 : ((x :: t).getLast?).or none = (t.getLast?).or (some x) :=
        getLast?_or_cons t x none
      rw [or_none] at h2
      rw [h2]
      cases t.getLast? <;> rfl

/-- C10: (1) the parser's pending `state_input` is consumed and reset
after every section, so (2) parsing a section list with the threaded
field equals parsing every section with a fresh empty field — no lock
ever leaks onto a following state — and likewise for a whole script
document; and (3) a section's state carries a lock exactly when its own
message body contains at least one well-formed `<input …/>` tag — even
inside an `<if>` span — namely the pair of the last such tag in document
order. -/
theorem claim_C10 :
    (∀ (si : Option (Int × Int)) (d : List Char) (st : GameState)
        (si1 : Option (Int × Int)),
      parseSection si d = some (st, si1) → si1 = none) ∧
    (∀ ds : List (List Char), parseSections none ds = seqParse ds) ∧
    (∀ md : String, parseGame md = seqParse (splitSepL sectSep md.data)) ∧
    ∀ (d : List Char) (st : GameState) (si1 : Option (Int × Int)),
      parseSection none d = some (st, si1) →
      st.allow_input = (inputSpecsBlocks (sectionBodyText d)).getLast? ∧
      (st.allow_input.isSome = true ↔ inputSpecsBlocks (sectionBodyText d) ≠ []) := by
  refine ⟨parseSection_reset, parseSections_fresh, ?_, ?_⟩
  · intro md
    exact parseSections_fresh (splitSepL sectSep md.data)
  · intro d st si1 h
    have h1 := parseSection_lock none d st si1 h
    rw [or_none] at h1
    refine ⟨h1, ?_⟩
    rw [h1]
    constructor
    · intro hs
      intro hnil
      rw [hnil] at hs
      simp at hs
    · intro hnil
      cases hl : (inputSpecsBlocks (sectionBodyText d)) with
      | nil => exact absurd hl hnil
      | cons x t =>
        rw [hl] at h1
        have h2 : ((x :: t).getLast?).or none = (t.getLast?).or (some x) :=
          getLast?_or_cons t x none
        rw [or_none] at h2
        rw [h2]
        cases t.getLast? <;> rfl

def d10 : List Char :=
  "### 1\n\nA <input k correct=3 wrong=4/> <if m>B <input k correct=5 wrong=6/></if>\n\n> go (2)".data

def st10 : GameState :=
  { state_index := 1,
    message_blocks := [⟨none, [.message "A "]⟩, ⟨some "m", [.message "B "]⟩, ⟨none, []⟩],
    replies := some [⟨none, "go", 2⟩], allow_input := some (5, 6),
    is_lethal := false, is_victory := false }

/-- C10 (witness): a concrete section with two input tags, the second
inside an `<if>` span: the parsed state's lock is the last tag `(5, 6)`,
even when a stale pending spec is handed in, the pending field leaves as
`none`, and the whole-list parse equals the fresh-field parse. -/
theorem claim_C10_witness :
    ((none : Option (Int × Int)) = none) ∧
    parseSections none [d10] = seqParse [d10] ∧
    st10.allow_input = (inputSpecsBlocks (sectionBodyText d10)).getLast? ∧
    (st10.allow_input.isSome = true ↔ inputSpecsBlocks (sectionBodyText d10) ≠ []) :=
  ⟨claim_C10.1 (some (9, 9)) d10 st10 none (by decide),
   claim_C10.2.1 [d10],
   claim_C10.2.2.2 d10 st10 none (by decide)⟩

end Dream
